import Mathlib

/-!
Verification of the Convertifier core transpiler (src/app.py).

The source is a Python program translating between a Python subset ("Lang-A")
and a C++ subset ("Lang-B").  This development shallowly embeds the pure core
functions of src/app.py over Lean strings (`String.data : List Char`):

* `format_code`       — src/app.py lines 33-60
* `validate_python_code` / `validate_cpp_code` — lines 99-113
* `python_to_cpp` / `convert_python_expr`      — lines 115-266
* `cpp_to_python` / `convert_cpp_line`         — lines 268-326

Python exceptions are modelled as `Except` values; CPython's `ast.parse`
(standard library, outside this repository) is modelled at its interface as a
parse outcome `Except String (List PyStmt)` handed to the translator.
Python's `str.strip`/`\w`/`\s` are modelled over their ASCII character sets;
all inputs exercised by the claims are ASCII.
-/

namespace Convertifier

/-! ## Definitions: the embedding of src/app.py -/

/-- Characters stripped by Python's `str.strip()` (ASCII whitespace). -/
def pyWsChars : List Char := [' ', '\t', '\n', '\r', '\x0b', '\x0c']

def isPyWs (c : Char) : Bool := pyWsChars.contains c

/-- Python's `str.strip()`: drop leading and trailing whitespace. -/
def pyStripC (s : List Char) : List Char :=
  ((s.dropWhile isPyWs).reverse.dropWhile isPyWs).reverse

def pyStrip (s : String) : String := String.mk (pyStripC s.data)

/-- Python's `sep.join(parts)`. -/
def joinSep (sep : String) : List String → String
  | [] => ""
  | [x] => x
  | x :: y :: xs => x ++ sep ++ joinSep sep (y :: xs)

/-- Character-level counterpart of `joinSep "\n"`. -/
def joinNLc : List (List Char) → List Char
  | [] => []
  | [x] => x
  | x :: y :: xs => x ++ '\n' :: joinNLc (y :: xs)

/-- Python's `str.split('\n')` at character level. -/
def splitNLc : List Char → List (List Char)
  | [] => [[]]
  | c :: cs =>
    match splitNLc cs with
    | [] => [[c]]
    | r :: rs => if c = '\n' then [] :: r :: rs else (c :: r) :: rs

/-- Python's `str.split('\n')`. -/
def splitNL (s : String) : List String := (splitNLc s.data).map String.mk

/-- Python's `str.startswith`. -/
def strStarts (p s : String) : Bool := p.data.isPrefixOf s.data

/-- Python's `str.endswith`. -/
def strEnds (p s : String) : Bool := p.data.reverse.isPrefixOf s.data.reverse

/-- Containment of `p` as a contiguous run in `s` (Python's `in`). -/
def isInfixOfC (p : List Char) : List Char → Bool
  | [] => p.isEmpty
  | c :: t => p.isPrefixOf (c :: t) || isInfixOfC p t

/-- Python's substring test `p in s`. -/
def hasSub (p s : String) : Bool := isInfixOfC p.data s.data

/-- Number of positions of `s` at which the pattern `p` occurs. -/
def occCount (p : List Char) : List Char → Nat
  | [] => if p.isEmpty then 1 else 0
  | c :: t => (if p.isPrefixOf (c :: t) then 1 else 0) + occCount p t

/-- String-level occurrence count. -/
def occCountS (p s : String) : Nat := occCount p.data s.data

/-- Right strip as used inside `pyStripC`. -/
def stripR (s : List Char) : List Char := (s.reverse.dropWhile isPyWs).reverse

/-- Indent level at which a stripped line is emitted: `format_code` first runs
`indent_level = max(0, indent_level - 1)` when the line starts with the
block-close token.  The Python `int` never becomes negative thanks to the
`max`, so `Nat` with truncated subtraction models it exactly. -/
def cppEmitLvl (lvl : Nat) (line : String) : Nat :=
  if strStarts "\x7d" line then lvl - 1 else lvl

/-- Indent level carried to the next line: incremented after emitting a line
that ends with the block-open token. -/
def cppNextLvl (lvl : Nat) (line : String) : Nat :=
  if strEnds "\x7b" line then cppEmitLvl lvl line + 1 else cppEmitLvl lvl line

/-- Loop of the non-Python branch of `format_code` (src/app.py lines 43-55):
strip each line, pass blank lines through as empty lines, and emit other
lines at `'    ' * indent_level`. -/
def cppFormatLines (lvl : Nat) : List String → List String
  | [] => []
  | raw :: rest =>
    if pyStrip raw = "" then "" :: cppFormatLines lvl rest
    else
      (String.mk (List.replicate (4 * cppEmitLvl lvl (pyStrip raw)) ' ') ++ pyStrip raw) ::
        cppFormatLines (cppNextLvl lvl (pyStrip raw)) rest

/-- Embedding of `format_code` (src/app.py lines 33-60).  The `try/except`
wrapper in the source is dead: every operation in the body is total, so the
`except` branch that would return `code` unchanged is never taken. -/
def format_code (code language : String) : String :=
  if language = "python" then pyStrip code
  else joinSep "\n" (cppFormatLines 0 (splitNL code))

/-- Modelled from the spec: the Lang-A branch of the formatter, "strip only
leading/trailing whitespace; no structural reformatting". -/
def format_python_spec (code : String) : String := pyStrip code

/-- Modelled from the spec: one step of the Lang-B reindentation scan — the
indent level decreases (clamped at zero) on a line beginning with the
block-close token before the line is emitted, each non-blank line is emitted
with four spaces per level prepended to its stripped content, the level
increases after a line ending with the block-open token, and blank lines pass
through as empty lines. -/
def cppSpecStep (st : Nat × List String) (raw : String) : Nat × List String :=
  let stripped := pyStrip raw
  if stripped = "" then (st.1, st.2 ++ [""])
  else
    let emitLvl := if strStarts "\x7d" stripped then st.1 - 1 else st.1
    let nextLvl := if strEnds "\x7b" stripped then emitLvl + 1 else emitLvl
    (nextLvl, st.2 ++ [String.mk (List.replicate (4 * emitLvl) ' ') ++ stripped])

/-- Modelled from the spec: the Lang-B branch of the formatter — recompute
indentation from scratch by scanning lines. -/
def format_cpp_spec (code : String) : String :=
  joinSep "\n" (((splitNL code).foldl cppSpecStep (0, [])).2)

inductive BinOpK where
  | add | sub | mult | div | mod
deriving DecidableEq

inductive CmpOpK where
  | eqOp | neOp | ltOp | leOp | gtOp | geOp
deriving DecidableEq

inductive BoolOpK where
  | andOp | orOp
deriving DecidableEq

inductive UnaryOpK where
  | uadd | usub | unot
deriving DecidableEq

inductive PyExpr where
  | num (n : Int)
  | str (s : String)
  | name (id : String)
  | binop (left : PyExpr) (op : BinOpK) (right : PyExpr)
  | compare (left : PyExpr) (ops : List CmpOpK) (comparators : List PyExpr)
  | call (func : PyExpr) (args : List PyExpr)
  | boolop (op : BoolOpK) (values : List PyExpr)
  | unaryop (op : UnaryOpK) (operand : PyExpr)

/-- Formal argument of a `FunctionDef`: its name and, in `ann`, the source
node's optional type annotation. -/
structure PyArg where
  name : String
  ann : Option PyExpr

inductive PyStmt where
  | functionDef (name : String) (args : List PyArg) (body : List PyStmt)
  | ret (value : Option PyExpr)
  | exprStmt (value : PyExpr)
  | assign (targets : List PyExpr) (value : PyExpr)
  | ifStmt (test : PyExpr) (body : List PyStmt) (orelse : List PyStmt)
  | imprt (names : List String)
  | importFrom (module : Option String)

def binopStr : BinOpK → String
  | .add => "+" | .sub => "-" | .mult => "*" | .div => "/" | .mod => "%"

def cmpStr : CmpOpK → String
  | .eqOp => "=="
  | .neOp => "!="
  | .ltOp => "<"
  | .leOp => "<="
  | .gtOp => ">"
  | .geOp => ">="

def boolopStr : BoolOpK → String
  | .andOp => "&&" | .orOp => "||"

def unopStr : UnaryOpK → String
  | .uadd => "+" | .usub => "-" | .unot => "!"

def digitChar : Nat → Char
  | 0 => '0' | 1 => '1' | 2 => '2' | 3 => '3' | 4 => '4'
  | 5 => '5' | 6 => '6' | 7 => '7' | 8 => '8' | _ => '9'

/-- Decimal digits of a natural number, fuel-based so that it reduces. -/
def natToCharsAux : Nat → Nat → List Char → List Char
  | 0, _, acc => acc
  | fuel + 1, n, acc =>
    if n < 10 then digitChar n :: acc
    else natToCharsAux fuel (n / 10) (digitChar (n % 10) :: acc)

def natToChars (n : Nat) : List Char := natToCharsAux (n + 1) n []

/-- Python's `str` on an `int` (the rendering of `ast.Num` values). -/
def intToChars : Int → List Char
  | .ofNat n => natToChars n
  | .negSucc m => '-' :: natToChars (m + 1)

/-- CPython's default object repr `str(node) = "<ast.Cls object at 0xADDR>"`,
used by the source as a last-resort rendering; `addr` is the runtime memory
address text, which the embedding takes as a parameter. -/
def pyObjRepr (cls addr : String) : String :=
  "<ast." ++ cls ++ " object at " ++ addr ++ ">"

/-- Runtime class name of a statement node, as printed by `str(node)`. -/
def pyStmtClass : PyStmt → String
  | .functionDef .. => "FunctionDef"
  | .ret _ => "Return"
  | .exprStmt _ => "Expr"
  | .assign .. => "Assign"
  | .ifStmt .. => "If"
  | .imprt _ => "Import"
  | .importFrom _ => "ImportFrom"

mutual

/-- Embedding of `convert_python_expr` (src/app.py lines 208-266).  The
`except` branch of the source can fire in exactly one reachable way: the
`node.comparators[0]` subscript raises `IndexError` when a `Compare` node has
no comparators, and the handler returns `str(node)` — modelled by the
`compare _ _ []` arm.  All other arms are total. -/
def convert_python_expr (addr : String) : PyExpr → String
  | .num n => String.mk (intToChars n)
  | .str s => "\"" ++ s ++ "\""
  | .name id => id
  | .binop l op r =>
      "(" ++ convert_python_expr addr l ++ " " ++ binopStr op ++ " "
        ++ convert_python_expr addr r ++ ")"
  | .compare l ops comps =>
      match comps with
      | c0 :: _ =>
          "(" ++ convert_python_expr addr l ++ " " ++ joinSep " " (ops.map cmpStr)
            ++ " " ++ convert_python_expr addr c0 ++ ")"
      | [] => pyObjRepr "Compare" addr
  | .call (.name id) args =>
      if id = "print" then
        "std::cout << " ++ joinSep " << " (cpeList addr args) ++ " << std::endl"
      else if id = "input" then
        "std::cin >> "
          ++ (match cpeList addr args with
              | a :: _ => a
              | [] => "input_var")
      else id ++ "(" ++ joinSep ", " (cpeList addr args) ++ ")"
  | .call f args =>
      convert_python_expr addr f ++ "(" ++ joinSep ", " (cpeList addr args) ++ ")"
  | .boolop op vs =>
      "(" ++ joinSep (" " ++ boolopStr op ++ " ") (cpeList addr vs) ++ ")"
  | .unaryop op e => unopStr op ++ "(" ++ convert_python_expr addr e ++ ")"

/-- The source's list comprehensions `[convert_python_expr(a) for a in args]`. -/
def cpeList (addr : String) : List PyExpr → List String
  | [] => []
  | e :: es => convert_python_expr addr e :: cpeList addr es

end

/-- In the source, `convert_python_expr` is applied to the raw statement
objects of an `if` branch (src/app.py lines 175 and 180); no `isinstance` arm
of `convert_python_expr` matches a statement node, so the rendering falls
through to `str(node)`, CPython's default object repr. -/
def convert_stmt_fallback (addr : String) (s : PyStmt) : String :=
  pyObjRepr (pyStmtClass s) addr

/-- Parameter rendering of a `FunctionDef` (src/app.py lines 147-152): the
type is the annotation's identifier when the annotation is a `Name`, else the
generic placeholder `auto`. -/
def paramStr (a : PyArg) : String :=
  (match a.ann with
   | some (.name id) => id
   | _ => "auto") ++ " " ++ a.name

/-- Lines appended for one statement inside a `FunctionDef` body
(src/app.py lines 156-181). Unhandled statement kinds append nothing. -/
def funcStmtLines (addr : String) : PyStmt → List String
  | .ret (some v) => ["    return " ++ convert_python_expr addr v ++ ";"]
  | .ret none => ["    return;"]
  | .exprStmt v =>
      match v with
      | .call f args =>
          match f with
          | .name id =>
              if id = "print" then
                ["    std::cout << " ++ joinSep " << " (cpeList addr args)
                  ++ " << std::endl;"]
              else ["    " ++ convert_python_expr addr (.call (.name id) args) ++ ";"]
          | _ => ["    " ++ convert_python_expr addr (.call f args) ++ ";"]
      | _ => []
  | .assign targets v =>
      targets.map (fun t =>
        "    " ++ convert_python_expr addr t ++ " = "
          ++ convert_python_expr addr v ++ ";")
  | .ifStmt test body orelse =>
      ("    if (" ++ convert_python_expr addr test ++ ") \x7b")
        :: body.map (fun s => "        " ++ convert_stmt_fallback addr s)
        ++ ["    \x7d"]
        ++ (if orelse.isEmpty then []
            else ("    else \x7b")
              :: orelse.map (fun s => "        " ++ convert_stmt_fallback addr s)
              ++ ["    \x7d"])
  | _ => []

/-- Concatenation of per-statement line lists. -/
def linesOfList (f : PyStmt → List String) : List PyStmt → List String
  | [] => []
  | s :: rest => f s ++ linesOfList f rest

/-- Entries appended for one top-level node in the body pass of
`python_to_cpp` (src/app.py lines 143-194).  Top-level nodes other than
`FunctionDef`, `Assign` and `Expr` append nothing. -/
def moduleNodeLines (addr : String) : PyStmt → List String
  | .functionDef nm args body =>
      ("void " ++ nm ++ "(" ++ joinSep ", " (args.map paramStr) ++ ") \x7b")
        :: linesOfList (funcStmtLines addr) body ++ ["\x7d", ""]
  | .assign targets v =>
      targets.map (fun t =>
        "auto " ++ convert_python_expr addr t ++ " = "
          ++ convert_python_expr addr v ++ ";")
  | .exprStmt v =>
      match v with
      | .call f args =>
          match f with
          | .name id =>
              if id = "print" then
                ["std::cout << " ++ joinSep " << " (cpeList addr args)
                  ++ " << std::endl;"]
              else [convert_python_expr addr (.call (.name id) args) ++ ";"]
          | _ => [convert_python_expr addr (.call f args) ++ ";"]
      | _ => []
  | _ => []

/-- Python's `set.add`, modelled on lists: already-present elements are not
duplicated.  Only the sorted rendering of the set is observable. -/
def setAdd (s : List String) (x : String) : List String :=
  if x ∈ s then s else s ++ [x]

/-- Header added for one imported module name (both `ast.Import` names and an
`ast.ImportFrom` module go through the same table). -/
def importAdds (acc : List String) (modName : String) : List String :=
  if modName = "math" then setAdd acc "<cmath>"
  else if modName = "random" then setAdd acc "<random>"
  else if modName = "time" then setAdd acc "<ctime>"
  else acc

mutual

/-- Include collection over one node.  The source iterates `ast.walk(tree)`
(breadth-first over every node of the tree); the embedding walks the same
node set depth-first — the resulting set does not depend on the order, and
only its sorted rendering is used. -/
def walkStmtIncludes (acc : List String) : PyStmt → List String
  | .imprt names => names.foldl importAdds acc
  | .importFrom m =>
      match m with
      | some mn => importAdds acc mn
      | none => acc
  | .functionDef _ _ body => walkListIncludes acc body
  | .ifStmt _ body orelse => walkListIncludes (walkListIncludes acc body) orelse
  | _ => acc

def walkListIncludes (acc : List String) : List PyStmt → List String
  | [] => acc
  | s :: rest => walkListIncludes (walkStmtIncludes acc s) rest

end

/-- The include set of a module: seeded with the two always-present headers
`<iostream>` and `<string>` (src/app.py line 119). -/
def collectIncludes (m : List PyStmt) : List String :=
  walkListIncludes ["<iostream>", "<string>"] m

/-- Lexicographic comparison of character lists by code point — Python's
string order. -/
def listLeB : List Char → List Char → Bool
  | [], _ => true
  | c :: cs, d :: ds =>
      if c.toNat < d.toNat then true
      else if d.toNat < c.toNat then false
      else listLeB cs ds
  | _ :: _, [] => false

/-- Python's `s <= t` on strings. -/
def strLeB (a b : String) : Bool := listLeB a.data b.data

def insertSorted (x : String) : List String → List String
  | [] => [x]
  | y :: ys => if strLeB x y then x :: y :: ys else y :: insertSorted x ys

/-- Python's `sorted` on a list of strings: ascending insertion sort. -/
def sortStrings : List String → List String
  | [] => []
  | x :: xs => insertSorted x (sortStrings xs)

/-- Python's `sorted(includes)`: lexicographic string order. -/
def includesList (m : List PyStmt) : List String :=
  sortStrings (collectIncludes m)

/-- The first entry of `cpp_code`: all includes, one per line
(src/app.py line 139). -/
def includesEntry (m : List PyStmt) : String :=
  joinSep "\n" ((includesList m).map (fun inc => "#include " ++ inc))

/-- The trivial entry-point stub appended when no entry mentions `main`
(src/app.py lines 196-201; the triple-quoted literal starts with a newline). -/
def mainStub : String :=
  "\nint main() \x7b\n    // Your code will be executed here\n    return 0;\n\x7d"

/-- The `cpp_code` list of `python_to_cpp` before the entry-point check:
includes entry, blank entry, then the body-pass entries. -/
def python_to_cpp_body (addr : String) (m : List PyStmt) : List String :=
  includesEntry m :: "" :: linesOfList (moduleNodeLines addr) m

/-- Translation of a successfully parsed module, including the entry-point
stub check `any("main" in line for line in cpp_code)` (src/app.py 196-203). -/
def python_to_cpp_translate (addr : String) (m : List PyStmt) : String :=
  if (python_to_cpp_body addr m).any (fun l => hasSub "main" l) then
    joinSep "\n" (python_to_cpp_body addr m)
  else
    joinSep "\n" (python_to_cpp_body addr m ++ [mainStub])

/-- Embedding of `python_to_cpp` (src/app.py lines 115-206).  CPython's
`ast.parse` (standard library, outside this repository) is modelled at its
interface: the function receives the parse outcome, `Except.error e` standing
for a raised `SyntaxError` with message text `e`.  The translation of an
`ok` module is total, so the outer `except` catches exactly the parse
failures and renders the diagnostic of src/app.py line 206. -/
def python_to_cpp (addr : String) (parsed : Except String (List PyStmt)) : String :=
  match parsed.map (python_to_cpp_translate addr) with
  | .ok s => s
  | .error e => "Error converting Python to C++: " ++ e

/-- Embedding of `validate_python_code`: `ast.parse` is modelled as the given
parse outcome; success yields `(True, "Valid Python code")`, a `SyntaxError`
with text `e` yields the failure pair of src/app.py line 105. -/
def validate_python_code (parsed : Except String (List PyStmt)) : Bool × String :=
  match parsed with
  | .ok _ => (true, "Valid Python code")
  | .error e => (false, "Invalid Python code: " ++ e)

/-- The `for element in required_elements` loop of `validate_cpp_code`. -/
def validate_cpp_loop (code : String) : List String → Bool × String
  | [] => (true, "Valid C++ code")
  | el :: rest =>
      if hasSub el code = false then
        (false, "Invalid C++ code: Missing required element '" ++ el ++ "'")
      else validate_cpp_loop code rest

/-- Embedding of `validate_cpp_code` (src/app.py lines 107-113). -/
def validate_cpp_code (code : String) : Bool × String :=
  validate_cpp_loop code [";", "\x7b", "\x7d"]

/-- Modelled from the Python standard library (outside this repository):
`ast.parse("")` succeeds and yields `Module(body=[])` — the empty string is a
syntactically valid, empty, Python module. -/
def ast_parse_empty : Except String (List PyStmt) := Except.ok []

def isWordChar (c : Char) : Bool := c.isAlpha || c.isDigit || c = '_'

/-- Python's `line.rstrip(';')`. -/
def rstripSemi (s : List Char) : List Char := (s.reverse.dropWhile (· = ';')).reverse

/-- Match a literal at the head, returning the remainder. -/
def matchLit (lit s : List Char) : Option (List Char) :=
  if lit.isPrefixOf s then some (s.drop lit.length) else none

/-- Leftmost-first alternation over literal keywords (their first characters
are pairwise distinct in every pattern of the source). -/
def matchAlt : List String → List Char → Option (List Char)
  | [], _ => none
  | k :: ks, s =>
      match matchLit k.data s with
      | some r => some r
      | none => matchAlt ks s

/-- Global substitution: scan left to right, replace each match and resume
after its replacement.  Every matcher consumes at least one character, so a
fuel of the input length suffices. -/
def subAll (m : List Char → Option (List Char × List Char)) :
    Nat → List Char → List Char
  | 0, s => s
  | _ + 1, [] => []
  | fuel + 1, c :: cs =>
      match m (c :: cs) with
      | some (rep, rest) => rep ++ subAll m fuel rest
      | none => c :: subAll m fuel cs

def runSub (m : List Char → Option (List Char × List Char)) (s : List Char) :
    List Char := subAll m s.length s

/-- Pattern `(int|float|double|string|bool|auto)\s+(\w+)\s*=\s*`,
replacement `\2 = `. -/
def mTypeAssign (s : List Char) : Option (List Char × List Char) :=
  match matchAlt ["int", "float", "double", "string", "bool", "auto"] s with
  | none => none
  | some r1 =>
      if (r1.takeWhile isPyWs).isEmpty then none
      else
        let r2 := r1.dropWhile isPyWs
        let g2 := r2.takeWhile isWordChar
        if g2.isEmpty then none
        else
          match (r2.dropWhile isWordChar).dropWhile isPyWs with
          | '=' :: r4 => some (g2 ++ [' ', '=', ' '], r4.dropWhile isPyWs)
          | _ => none

/-- Pattern `std::cout\s*<<\s*`, replacement `print(`. -/
def mCoutOpen (s : List Char) : Option (List Char × List Char) :=
  match matchLit "std::cout".data s with
  | none => none
  | some r1 =>
      match matchLit "<<".data (r1.dropWhile isPyWs) with
      | none => none
      | some r2 => some ("print(".data, r2.dropWhile isPyWs)

/-- Pattern `\s*<<\s*std::endl`, replacement `)`. -/
def mEndl (s : List Char) : Option (List Char × List Char) :=
  match matchLit "<<".data (s.dropWhile isPyWs) with
  | none => none
  | some r2 =>
      match matchLit "std::endl".data (r2.dropWhile isPyWs) with
      | none => none
      | some r3 => some (")".data, r3)

/-- Pattern `\s*<<\s*`, replacement ` + `. -/
def mChain (s : List Char) : Option (List Char × List Char) :=
  match matchLit "<<".data (s.dropWhile isPyWs) with
  | none => none
  | some r2 => some (" + ".data, r2.dropWhile isPyWs)

/-- Pattern `std::cin\s*>>\s*`, replacement `input()`. -/
def mCin (s : List Char) : Option (List Char × List Char) :=
  match matchLit "std::cin".data s with
  | none => none
  | some r1 =>
      match matchLit ">>".data (r1.dropWhile isPyWs) with
      | none => none
      | some r2 => some ("input()".data, r2.dropWhile isPyWs)

/-- Pattern `(int|float|double|string|bool|void)\s+(\w+)\s*\(([^)]*)\)`,
replacement `def \2(\3):`. -/
def mFuncSig (s : List Char) : Option (List Char × List Char) :=
  match matchAlt ["int", "float", "double", "string", "bool", "void"] s with
  | none => none
  | some r1 =>
      if (r1.takeWhile isPyWs).isEmpty then none
      else
        let r2 := r1.dropWhile isPyWs
        let g2 := r2.takeWhile isWordChar
        if g2.isEmpty then none
        else
          match (r2.dropWhile isWordChar).dropWhile isPyWs with
          | '(' :: r4 =>
              let g3 := r4.takeWhile (fun c => c ≠ ')')
              match r4.dropWhile (fun c => c ≠ ')') with
              | ')' :: r5 => some ("def ".data ++ g2 ++ '(' :: g3 ++ [')', ':'], r5)
              | _ => none
          | _ => none

/-- Pattern `std::string\s*\(\s*"([^"]*)"\s*\)`, replacement `"\1"`. -/
def mStrCtor (s : List Char) : Option (List Char × List Char) :=
  match matchLit "std::string".data s with
  | none => none
  | some r1 =>
      match r1.dropWhile isPyWs with
      | '(' :: r2 =>
          match r2.dropWhile isPyWs with
          | '"' :: r3 =>
              let g1 := r3.takeWhile (fun c => c ≠ '"')
              match r3.dropWhile (fun c => c ≠ '"') with
              | '"' :: r4 =>
                  match r4.dropWhile isPyWs with
                  | ')' :: r5 => some ('"' :: g1 ++ ['"'], r5)
                  | _ => none
              | _ => none
          | _ => none
      | _ => none

/-- Python's `str.replace(pat, rep)`: left-to-right, non-overlapping. -/
def litSub (pat rep : List Char) (s : List Char) : List Char :=
  runSub (fun t =>
    match matchLit pat t with
    | some r => some (rep, r)
    | none => none) s

/-- Embedding of `convert_cpp_line` (src/app.py lines 303-326): the ordered
per-line rewrite pipeline.  Its `try/except` is dead — every rewrite is
total — so the handler that would return the line unchanged never runs. -/
def convert_cpp_line (line : String) : String :=
  let l0 := rstripSemi line.data
  let l1 := runSub mTypeAssign l0
  let l2 := if isInfixOfC "std::cout".data l1 then
              runSub mChain (runSub mEndl (runSub mCoutOpen l1))
            else l1
  let l3 := if isInfixOfC "std::cin".data l2 then runSub mCin l2 else l2
  let l4 := runSub mFuncSig l3
  let l5 := litSub "!=".data "!=".data (litSub "==".data "==".data
              (litSub "||".data "or".data (litSub "&&".data "and".data
                (litSub "false".data "False".data
                  (litSub "true".data "True".data l4)))))
  let l6 := runSub mStrCtor l5
  String.mk l6

/-- Loop state of `cpp_to_python`: the skip flag `in_main`, the running brace
count (a Python `int`, so it may go negative), and the collected lines. -/
structure CppState where
  in_main : Bool
  brace : Int
  out : List String
deriving DecidableEq

/-- One iteration of the `for line in code_lines` loop of `cpp_to_python`:
strip; drop include directives and blank lines; a line containing the
entry-point signature switches skip mode on (its own braces are not
counted); in skip mode braces are counted and the line dropped, leaving skip
mode when the count is zero; otherwise the line is rewritten and collected
when the rewrite is non-empty. -/
def cppStep (st : CppState) (rawLine : String) : CppState :=
  let line := pyStrip rawLine
  if strStarts "#include" line || line = "" then st
  else if hasSub "int main()" line then { st with in_main := true }
  else if st.in_main then
    let b := st.brace + (line.data.count '{' : Int) - (line.data.count '}' : Int)
    { st with brace := b, in_main := if b = 0 then false else true }
  else
    let conv := convert_cpp_line line
    if conv = "" then st else { st with out := st.out ++ [conv] }

def cpp_to_python_lines (s : String) : List String :=
  ((splitNL s).foldl cppStep ⟨false, 0, []⟩).out

/-- The `try` body of `cpp_to_python`: total, hence always `ok`. -/
def cpp_to_python_inner (s : String) : Except String String :=
  Except.ok (joinSep "\n" (cpp_to_python_lines s))

/-- The `except` handler of `cpp_to_python` (src/app.py lines 299-301),
applied to the outcome of the body. -/
def cpp_to_python_catch : Except String String → String
  | .ok t => t
  | .error e => "Error converting C++ to Python: " ++ e

/-- Embedding of `cpp_to_python` (src/app.py lines 268-301). -/
def cpp_to_python (s : String) : String :=
  cpp_to_python_catch (cpp_to_python_inner s)

/-- CPython's `ast.parse` result for the Lang-A source `print(1 + 2)`:
an expression statement whose value is a `print` call on a binary sum. -/
def moduleC8 : List PyStmt :=
  [.exprStmt (.call (.name "print") [.binop (.num 1) .add (.num 2)])]

/-- CPython's `ast.parse` result for the Lang-A source
`def add(a, b): return a + b`: a function with two unannotated parameters
whose body returns the parenthesized sum. -/
def moduleC9 : List PyStmt :=
  [.functionDef "add" [⟨"a", none⟩, ⟨"b", none⟩]
     [.ret (some (.binop (.name "a") .add (.name "b")))]]

/-- CPython's `ast.parse` result for the Lang-A source `print()`:
a print call with no arguments. -/
def moduleC10 : List PyStmt := [.exprStmt (.call (.name "print") [])]

/-- The Lang-B input of claim C2, a single physical line. -/
def cppLitC2 : String :=
  "int main() \x7b int x = 5; std::cout << x << std::endl; return 0; \x7d"

mutual

/-- Observation predicate for claim C7: whether the tree imports the given
module name anywhere (plain import or from-import), mirroring the node set
visited by the include-collection pass. -/
def stmtMentionsImport (mn : String) : PyStmt → Bool
  | .imprt names => names.contains mn
  | .importFrom m => m == some mn
  | .functionDef _ _ body => listMentionsImport mn body
  | .ifStmt _ body orelse => listMentionsImport mn body || listMentionsImport mn orelse
  | _ => false

def listMentionsImport (mn : String) : List PyStmt → Bool
  | [] => false
  | s :: rest => stmtMentionsImport mn s || listMentionsImport mn rest

end

/-- The five headers that can ever enter the include set. -/
def includeUniverse : List String :=
  ["<iostream>", "<string>", "<cmath>", "<random>", "<ctime>"]

/-- A module importing all three mapped standard-library modules, used to
witness claim C7 with its hypotheses discharged. -/
def moduleC7 : List PyStmt :=
  [.imprt ["math"], .importFrom (some "time"), .imprt ["random", "os"]]

def CleanS (s : String) : Prop :=
  occCountS "main" s = 0 ∧ s.data.count '{' = 0 ∧ s.data.count '}' = 0

instance decCleanS (s : String) : Decidable (CleanS s) := by
  unfold CleanS; infer_instance

/-- Cleanliness of one leaf string, as a decidable check. -/
def cleanStr (s : String) : Bool := decide (CleanS s)

mutual

/-- Every identifier and string literal of the expression is clean. -/
def cleanE : PyExpr → Bool
  | .num _ => true
  | .str s => cleanStr s
  | .name id => cleanStr id
  | .binop l _ r => cleanE l && cleanE r
  | .compare l _ comps => cleanE l && cleanEList comps
  | .call f args => cleanE f && cleanEList args
  | .boolop _ vs => cleanEList vs
  | .unaryop _ e => cleanE e

def cleanEList : List PyExpr → Bool
  | [] => true
  | e :: es => cleanE e && cleanEList es

end

/-- A function argument is clean: its name, and the annotation identifier
when the annotation is a `Name` (the only annotation shape that renders). -/
def cleanArg (a : PyArg) : Bool :=
  cleanStr a.name &&
    (match a.ann with
     | some (.name id) => cleanStr id
     | _ => true)

def cleanArgs : List PyArg → Bool
  | [] => true
  | a :: r => cleanArg a && cleanArgs r

mutual

/-- Every leaf string the body pass renders from the statement is clean.
Branch bodies of an `if` render only as object reprs, so their leaves are
not constrained. -/
def cleanSt : PyStmt → Bool
  | .functionDef nm args body => cleanStr nm && cleanArgs args && cleanStList body
  | .ret (some v) => cleanE v
  | .ret none => true
  | .exprStmt v => cleanE v
  | .assign ts v => cleanEList ts && cleanE v
  | .ifStmt t _ _ => cleanE t
  | .imprt _ => true
  | .importFrom _ => true

def cleanStList : List PyStmt → Bool
  | [] => true
  | s :: r => cleanSt s && cleanStList r

end

/-- Abbreviated occurrence count of the entry-point identifier. -/
def occMain (s : String) : Nat := occCountS "main" s

/-- Total brace counts over a list of rendered lines. -/
def countLines (c : Char) (ls : List String) : Nat :=
  (ls.map (fun l => l.data.count c)).sum

/-- Bundled per-line facts used for the entry-point claim. -/
def LinesOk (ls : List String) : Prop :=
  (∀ l ∈ ls, occMain l = 0) ∧ countLines '{' ls = countLines '}' ls

/-- CPython's `ast.parse` result for the Lang-A source
`main = main` followed by `x = "{"`. -/
def moduleC1 : List PyStmt :=
  [.assign [.name "main"] (.name "main"), .assign [.name "x"] (.str "\x7b")]

/-- A clean module used to witness the amended claim C1. -/
def moduleC1w : List PyStmt := [.exprStmt (.call (.name "print") [.num 7])]

/-! ## Theorems -/

theorem data_append (s t : String) : (s ++ t).data = s.data ++ t.data := rfl

theorem mk_data (s : String) : String.mk s.data = s := rfl

theorem occCount_nil {p : List Char} (hp : p ≠ []) : occCount p [] = 0 := by
  unfold occCount
  simp [List.isEmpty_iff, hp]

theorem occCount_cons (p : List Char) (c : Char) (t : List Char) :
    occCount p (c :: t) = (if p.isPrefixOf (c :: t) then 1 else 0) + occCount p t := rfl

theorem isPrefixOf_nil {p : List Char} (hp : p ≠ []) : p.isPrefixOf [] = false := by
  cases p with
  | nil => exact absurd rfl hp
  | cons a as => rfl

theorem nil_isPrefixOf (l : List Char) : ([] : List Char).isPrefixOf l = true := by
  rw [List.isPrefixOf_iff_prefix]
  exact List.nil_prefix

theorem isPrefixOf_append_sep {d : Char} :
    ∀ (p a t : List Char), d ∉ p → p.isPrefixOf (a ++ d :: t) = p.isPrefixOf a := by
  intro p
  induction p with
  | nil =>
    intro a t _
    rw [nil_isPrefixOf, nil_isPrefixOf]
  | cons q p' ih =>
    intro a t hd
    cases a with
    | nil =>
      have hq : (q == d) = false := by
        simp only [beq_eq_false_iff_ne, ne_eq]
        intro h; exact hd (by simp [h])
      simp [List.isPrefixOf, hq, isPrefixOf_nil]
    | cons x a' =>
      have hd' : d ∉ p' := fun h => hd (List.mem_cons_of_mem _ h)
      simp only [List.cons_append, List.isPrefixOf, List.append_eq, ih a' t hd']

theorem occCount_append_sep {p : List Char} {d : Char} (hp : p ≠ []) (hd : d ∉ p) :
    ∀ (a b : List Char), occCount p (a ++ d :: b) = occCount p a + occCount p b := by
  intro a
  induction a with
  | nil =>
    intro b
    have h1 : p.isPrefixOf (d :: b) = false := by
      have h2 := isPrefixOf_append_sep p [] b hd
      rw [List.nil_append] at h2
      rw [h2, isPrefixOf_nil hp]
    rw [List.nil_append, occCount_cons, h1, occCount_nil hp]
    simp
  | cons x a' ih =>
    intro b
    have e1 : (x :: a') ++ d :: b = x :: (a' ++ d :: b) := rfl
    have h1 : p.isPrefixOf (x :: (a' ++ d :: b)) = p.isPrefixOf (x :: a') := by
      have := isPrefixOf_append_sep p (x :: a') b hd
      simpa using this
    rw [e1, occCount_cons, h1, ih b, occCount_cons, Nat.add_assoc]

theorem occCount_cons_sep {p : List Char} {d : Char} (hp : p ≠ []) (hd : d ∉ p)
    (b : List Char) : occCount p (d :: b) = occCount p b := by
  have h := occCount_append_sep hp hd [] b
  rw [List.nil_append, occCount_nil hp, Nat.zero_add] at h
  exact h

theorem occCount_inert_prepend {p : List Char} (hp : p ≠ []) :
    ∀ (t s : List Char), (∀ c ∈ t, c ∉ p) → occCount p (t ++ s) = occCount p s := by
  intro t
  induction t with
  | nil => intro s _; rfl
  | cons c t' ih =>
    intro s ht
    have hc : c ∉ p := ht c (List.mem_cons_self c t')
    have ht' : ∀ x ∈ t', x ∉ p := fun x hx => ht x (List.mem_cons_of_mem _ hx)
    show occCount p (c :: (t' ++ s)) = occCount p s
    rw [occCount_cons_sep hp hc (t' ++ s)]
    exact ih s ht'

theorem occCount_inert {p t : List Char} (hp : p ≠ []) (ht : ∀ c ∈ t, c ∉ p) :
    occCount p t = 0 := by
  have := occCount_inert_prepend hp t [] ht
  simpa [occCount_nil hp] using this

theorem occCount_inert_append {p s t : List Char} (hp : p ≠ []) (ht : ∀ c ∈ t, c ∉ p) :
    occCount p (s ++ t) = occCount p s := by
  cases t with
  | nil => simp
  | cons d t' =>
    have hd : d ∉ p := ht d (List.mem_cons_self d t')
    have ht' : ∀ c ∈ t', c ∉ p := fun c hc => ht c (List.mem_cons_of_mem _ hc)
    rw [occCount_append_sep hp hd, occCount_inert hp ht']
    simp

theorem occCount_append_mid {p a t b : List Char} (hp : p ≠ []) (htne : t ≠ [])
    (ht : ∀ c ∈ t, c ∉ p) : occCount p (a ++ t ++ b) = occCount p a + occCount p b := by
  cases t with
  | nil => exact absurd rfl htne
  | cons d t' =>
    have hd : d ∉ p := ht d (List.mem_cons_self d t')
    have ht' : ∀ c ∈ t', c ∉ p := fun c hc => ht c (List.mem_cons_of_mem _ hc)
    have : a ++ (d :: t') ++ b = a ++ d :: (t' ++ b) := by simp
    rw [this, occCount_append_sep hp hd, occCount_inert_prepend hp t' b ht']

/-- Relation between `isInfixOfC` (Python's `in`) and the occurrence count. -/
theorem isInfixOfC_eq_false_of_occCount {p : List Char} (hp : p ≠ []) :
    ∀ s : List Char, occCount p s = 0 → isInfixOfC p s = false := by
  intro s
  induction s with
  | nil =>
    intro _
    unfold isInfixOfC
    simp [List.isEmpty_iff, hp]
  | cons c t ih =>
    intro h
    rw [occCount_cons] at h
    have h1 : p.isPrefixOf (c :: t) = false := by
      cases hpre : p.isPrefixOf (c :: t) with
      | false => rfl
      | true => rw [hpre] at h; simp at h
    have h2 : occCount p t = 0 := by
      rw [h1] at h; simpa using h
    unfold isInfixOfC
    rw [h1, ih h2]
    rfl

theorem splitNLc_ne_nil (s : List Char) : splitNLc s ≠ [] := by
  induction s with
  | nil => simp [splitNLc]
  | cons c cs ih =>
    simp only [splitNLc]
    cases h : splitNLc cs with
    | nil => simp
    | cons r rs =>
      by_cases hc : c = '\n' <;> simp [hc]

theorem splitNLc_no_newline (s : List Char) : ∀ p ∈ splitNLc s, '\n' ∉ p := by
  induction s with
  | nil => intro p hp; simp [splitNLc] at hp; simp [hp]
  | cons c cs ih =>
    intro p hp
    simp only [splitNLc] at hp
    cases h : splitNLc cs with
    | nil => exact absurd h (splitNLc_ne_nil cs)
    | cons r rs =>
      rw [h] at hp
      by_cases hc : c = '\n'
      · simp [hc] at hp
        rcases hp with hp | hp | hp
        · simp [hp]
        · exact ih r (h ▸ List.mem_cons_self r rs) |> fun hn => hp ▸ hn
        · exact ih p (h ▸ List.mem_cons_of_mem r hp)
      · simp [hc] at hp
        rcases hp with hp | hp
        · subst hp
          intro hmem
          rcases List.mem_cons.mp hmem with h1 | h1
          · exact hc h1.symm
          · exact ih r (h ▸ List.mem_cons_self r rs) h1
        · exact ih p (h ▸ List.mem_cons_of_mem r hp)

theorem splitNLc_no_nl (x : List Char) (hx : '\n' ∉ x) : splitNLc x = [x] := by
  induction x with
  | nil => rfl
  | cons c cs ih =>
    have hc : c ≠ '\n' := fun h => hx (h ▸ List.mem_cons_self c cs)
    have hcs : '\n' ∉ cs := fun h => hx (List.mem_cons_of_mem c h)
    simp only [splitNLc, ih hcs, hc, if_false]

theorem splitNLc_append_nl (x : List Char) (hx : '\n' ∉ x) (rest : List Char) :
    splitNLc (x ++ '\n' :: rest) = x :: splitNLc rest := by
  induction x with
  | nil =>
    simp only [List.nil_append, splitNLc]
    cases h : splitNLc rest with
    | nil => exact absurd h (splitNLc_ne_nil rest)
    | cons r rs => simp
  | cons c cs ih =>
    have hc : c ≠ '\n' := fun h => hx (h ▸ List.mem_cons_self c cs)
    have hcs : '\n' ∉ cs := fun h => hx (List.mem_cons_of_mem c h)
    have h1 := ih hcs
    simp only [List.cons_append, splitNLc, List.append_eq, h1, hc, if_false]

theorem splitNLc_joinNLc :
    ∀ ps : List (List Char), ps ≠ [] → (∀ p ∈ ps, '\n' ∉ p) →
      splitNLc (joinNLc ps) = ps := by
  intro ps
  induction ps with
  | nil => intro h; exact absurd rfl h
  | cons x xs ih =>
    intro _ hnl
    have hx : '\n' ∉ x := hnl x (List.mem_cons_self x _)
    cases xs with
    | nil => exact splitNLc_no_nl x hx
    | cons y ys =>
      have hrest : splitNLc (joinNLc (y :: ys)) = y :: ys :=
        ih (by simp) (fun p hp => hnl p (List.mem_cons_of_mem x hp))
      show splitNLc (x ++ '\n' :: joinNLc (y :: ys)) = x :: y :: ys
      rw [splitNLc_append_nl x hx, hrest]

theorem joinSep_nl_data :
    ∀ ls : List String, (joinSep "\n" ls).data = joinNLc (ls.map String.data) := by
  intro ls
  induction ls with
  | nil => rfl
  | cons x xs ih =>
    cases xs with
    | nil => rfl
    | cons y ys =>
      simp only [joinSep, joinNLc, List.map, data_append, ih]
      simp [List.append_assoc]

theorem splitNL_joinSep (ls : List String) (hne : ls ≠ [])
    (hnl : ∀ l ∈ ls, '\n' ∉ l.data) : splitNL (joinSep "\n" ls) = ls := by
  unfold splitNL
  rw [joinSep_nl_data, splitNLc_joinNLc (ls.map String.data)
    (by simpa using hne)
    (by intro p hp
        rcases List.mem_map.mp hp with ⟨l, hl, rfl⟩
        exact hnl l hl)]
  rw [List.map_map]
  have : (String.mk ∘ String.data) = id := by
    funext s; rfl
  rw [this, List.map_id]

theorem mem_dropWhile {p : Char → Bool} :
    ∀ {l : List Char} {c : Char}, c ∈ l.dropWhile p → c ∈ l := by
  intro l
  induction l with
  | nil => intro c h; simp at h
  | cons x xs ih =>
    intro c h
    by_cases hx : p x
    · simp only [List.dropWhile, hx] at h
      exact List.mem_cons_of_mem x (ih h)
    · simp only [List.dropWhile, hx] at h
      simpa using h

theorem mem_pyStripC {s : List Char} {c : Char} (h : c ∈ pyStripC s) : c ∈ s := by
  unfold pyStripC at h
  rw [List.mem_reverse] at h
  have h1 := mem_dropWhile h
  rw [List.mem_reverse] at h1
  exact mem_dropWhile h1

theorem dropWhile_dropWhile (p : Char → Bool) :
    ∀ l : List Char, (l.dropWhile p).dropWhile p = l.dropWhile p := by
  intro l
  induction l with
  | nil => rfl
  | cons x xs ih =>
    by_cases hx : p x
    · simp only [List.dropWhile, hx]; exact ih
    · simp only [List.dropWhile, hx]

theorem dropWhile_fix_of_head {p : Char → Bool} :
    ∀ {l : List Char}, (∀ c, l.head? = some c → p c = false) → l.dropWhile p = l := by
  intro l h
  cases l with
  | nil => rfl
  | cons x xs =>
    have := h x rfl
    simp [List.dropWhile, this]

theorem head?_dropWhile_not {p : Char → Bool} :
    ∀ (l : List Char) (c : Char), (l.dropWhile p).head? = some c → p c = false := by
  intro l
  induction l with
  | nil => intro c h; simp [List.dropWhile] at h
  | cons x xs ih =>
    intro c h
    by_cases hx : p x
    · simp only [List.dropWhile, hx] at h
      exact ih c h
    · simp only [List.dropWhile, hx] at h
      simp only [List.head?_cons, Option.some.injEq] at h
      subst h
      simpa using hx

theorem pyStripC_eq (s : List Char) : pyStripC s = stripR (s.dropWhile isPyWs) := rfl

theorem stripR_prefix (s : List Char) : ∃ t, stripR s ++ t = s := by
  have h : s.reverse.dropWhile isPyWs <:+ s.reverse := List.dropWhile_suffix _
  rcases h with ⟨t, ht⟩
  refine ⟨t.reverse, ?_⟩
  have := congrArg List.reverse ht
  simpa [stripR] using this

theorem head?_append_of_ne_nil {l t : List Char} (h : l ≠ []) :
    (l ++ t).head? = l.head? := by
  cases l with
  | nil => exact absurd rfl h
  | cons x xs => rfl

theorem dropWhile_stripR {s : List Char} (hs : s.dropWhile isPyWs = s) :
    (stripR s).dropWhile isPyWs = stripR s := by
  apply dropWhile_fix_of_head
  intro c hc
  rcases stripR_prefix s with ⟨t, ht⟩
  by_cases hn : stripR s = []
  · rw [hn] at hc; simp at hc
  · have h1 : s.head? = some c := by
      rw [← ht, head?_append_of_ne_nil hn, hc]
    have h2 : (s.dropWhile isPyWs).head? = some c := by rw [hs]; exact h1
    exact head?_dropWhile_not s c h2

theorem stripR_stripR (s : List Char) : stripR (stripR s) = stripR s := by
  unfold stripR
  rw [List.reverse_reverse, dropWhile_dropWhile]

theorem pyStripC_idem (s : List Char) : pyStripC (pyStripC s) = pyStripC s := by
  rw [pyStripC_eq s, pyStripC_eq]
  have h1 : (stripR (s.dropWhile isPyWs)).dropWhile isPyWs = stripR (s.dropWhile isPyWs) :=
    dropWhile_stripR (dropWhile_dropWhile isPyWs s)
  rw [h1, stripR_stripR]

theorem dropWhile_replicate_space (n : Nat) (s : List Char) :
    (List.replicate n ' ' ++ s).dropWhile isPyWs = s.dropWhile isPyWs := by
  induction n with
  | zero => rfl
  | succ m ih =>
    have : List.replicate (m + 1) ' ' ++ s = ' ' :: (List.replicate m ' ' ++ s) := by
      simp [List.replicate_succ]
    rw [this]
    have hws : isPyWs ' ' = true := by decide
    simp only [List.dropWhile, hws]
    exact ih

theorem pyStripC_replicate_space (n : Nat) (s : List Char) :
    pyStripC (List.replicate n ' ' ++ s) = pyStripC s := by
  rw [pyStripC_eq, pyStripC_eq, dropWhile_replicate_space]

theorem pyStrip_idem (s : String) : pyStrip (pyStrip s) = pyStrip s :=
  congrArg String.mk (pyStripC_idem s.data)

theorem pyStrip_indent (n : Nat) (s : String) :
    pyStrip (String.mk (List.replicate n ' ') ++ pyStrip s) = pyStrip s := by
  unfold pyStrip
  have h : (String.mk (List.replicate n ' ') ++ String.mk (pyStripC s.data)).data
      = List.replicate n ' ' ++ pyStripC s.data := rfl
  rw [h, pyStripC_replicate_space, pyStripC_idem]

theorem pyStrip_empty : pyStrip "" = "" := rfl

theorem cppFormatLines_idem :
    ∀ (ls : List String) (lvl : Nat),
      cppFormatLines lvl (cppFormatLines lvl ls) = cppFormatLines lvl ls := by
  intro ls
  induction ls with
  | nil => intro lvl; rfl
  | cons raw rest ih =>
    intro lvl
    by_cases h : pyStrip raw = ""
    · rw [show cppFormatLines lvl (raw :: rest) = "" :: cppFormatLines lvl rest by
        simp [cppFormatLines, h]]
      rw [show cppFormatLines lvl ("" :: cppFormatLines lvl rest)
          = "" :: cppFormatLines lvl (cppFormatLines lvl rest) by
        simp [cppFormatLines, pyStrip_empty]]
      rw [ih lvl]
    · rw [show cppFormatLines lvl (raw :: rest)
          = (String.mk (List.replicate (4 * cppEmitLvl lvl (pyStrip raw)) ' ')
              ++ pyStrip raw) ::
            cppFormatLines (cppNextLvl lvl (pyStrip raw)) rest by
        simp [cppFormatLines, h]]
      have hs : pyStrip (String.mk (List.replicate (4 * cppEmitLvl lvl (pyStrip raw)) ' ')
          ++ pyStrip raw) = pyStrip raw := pyStrip_indent _ raw
      rw [show cppFormatLines lvl
            ((String.mk (List.replicate (4 * cppEmitLvl lvl (pyStrip raw)) ' ')
              ++ pyStrip raw) ::
              cppFormatLines (cppNextLvl lvl (pyStrip raw)) rest)
          = (String.mk (List.replicate (4 * cppEmitLvl lvl (pyStrip raw)) ' ')
              ++ pyStrip raw) ::
            cppFormatLines (cppNextLvl lvl (pyStrip raw))
              (cppFormatLines (cppNextLvl lvl (pyStrip raw)) rest) by
        simp [cppFormatLines, hs, h]]
      rw [ih (cppNextLvl lvl (pyStrip raw))]

theorem cppFormatLines_ne_nil {ls : List String} (h : ls ≠ []) (lvl : Nat) :
    cppFormatLines lvl ls ≠ [] := by
  cases ls with
  | nil => exact absurd rfl h
  | cons raw rest =>
    by_cases hr : pyStrip raw = "" <;> simp [cppFormatLines, hr]

theorem cppFormatLines_no_newline {ls : List String}
    (h : ∀ l ∈ ls, '\n' ∉ l.data) (lvl : Nat) :
    ∀ l ∈ cppFormatLines lvl ls, '\n' ∉ l.data := by
  induction ls generalizing lvl with
  | nil => intro l hl; simp [cppFormatLines] at hl
  | cons raw rest ih =>
    intro l hl
    have hraw : '\n' ∉ raw.data := h raw (List.mem_cons_self raw rest)
    have hrest : ∀ l ∈ rest, '\n' ∉ l.data := fun x hx => h x (List.mem_cons_of_mem raw hx)
    by_cases hr : pyStrip raw = ""
    · rw [show cppFormatLines lvl (raw :: rest) = "" :: cppFormatLines lvl rest by
        simp [cppFormatLines, hr]] at hl
      rcases List.mem_cons.mp hl with h1 | h1
      · subst h1; simp
      · exact ih hrest lvl l h1
    · rw [show cppFormatLines lvl (raw :: rest)
          = (String.mk (List.replicate (4 * cppEmitLvl lvl (pyStrip raw)) ' ')
              ++ pyStrip raw) ::
            cppFormatLines (cppNextLvl lvl (pyStrip raw)) rest by
        simp [cppFormatLines, hr]] at hl
      rcases List.mem_cons.mp hl with h1 | h1
      · subst h1
        intro hmem
        have hdata : (String.mk (List.replicate (4 * cppEmitLvl lvl (pyStrip raw)) ' ')
            ++ pyStrip raw).data
            = List.replicate (4 * cppEmitLvl lvl (pyStrip raw)) ' ' ++ pyStripC raw.data := rfl
        rw [hdata] at hmem
        rcases List.mem_append.mp hmem with h2 | h2
        · have := List.eq_of_mem_replicate h2
          simp at this
        · exact hraw (mem_pyStripC h2)
      · exact ih hrest (cppNextLvl lvl (pyStrip raw)) l h1

theorem splitNL_ne_nil (s : String) : splitNL s ≠ [] := by
  unfold splitNL
  intro h
  exact splitNLc_ne_nil s.data (List.map_eq_nil_iff.mp h)

theorem splitNL_no_newline (s : String) : ∀ l ∈ splitNL s, '\n' ∉ l.data := by
  intro l hl
  unfold splitNL at hl
  rcases List.mem_map.mp hl with ⟨p, hp, rfl⟩
  exact splitNLc_no_newline s.data p hp

theorem cppSpecStep_foldl :
    ∀ (ls : List String) (lvl : Nat) (acc : List String),
      (ls.foldl cppSpecStep (lvl, acc)).2 = acc ++ cppFormatLines lvl ls := by
  intro ls
  induction ls with
  | nil => intro lvl acc; simp [cppFormatLines]
  | cons raw rest ih =>
    intro lvl acc
    by_cases h : pyStrip raw = ""
    · have hstep : cppSpecStep (lvl, acc) raw = (lvl, acc ++ [""]) := by
        simp [cppSpecStep, h]
      rw [List.foldl_cons, hstep, ih lvl (acc ++ [""])]
      rw [show cppFormatLines lvl (raw :: rest) = "" :: cppFormatLines lvl rest by
        simp [cppFormatLines, h]]
      simp
    · have hstep : cppSpecStep (lvl, acc) raw
          = (cppNextLvl lvl (pyStrip raw),
             acc ++ [String.mk (List.replicate (4 * cppEmitLvl lvl (pyStrip raw)) ' ')
               ++ pyStrip raw]) := by
        simp [cppSpecStep, h, cppNextLvl, cppEmitLvl]
      rw [List.foldl_cons, hstep, ih]
      rw [show cppFormatLines lvl (raw :: rest)
          = (String.mk (List.replicate (4 * cppEmitLvl lvl (pyStrip raw)) ' ')
              ++ pyStrip raw) ::
            cppFormatLines (cppNextLvl lvl (pyStrip raw)) rest by
        simp [cppFormatLines, h]]
      simp

/-- Claim C5: for every input string, `format_code` with language `python`
returns the input with only leading/trailing whitespace stripped, and
`format_code` with language `cpp` recomputes indentation line by line
exactly as the spec describes (level decremented, clamped at zero, on a line
beginning with the block-close token before emission; four spaces per level
prepended to each non-blank stripped line; level incremented after a line
ending with the block-open token; blank lines passed through empty). -/
theorem claim_C5_formatter (code : String) :
    format_code code "python" = format_python_spec code ∧
    format_code code "cpp" = format_cpp_spec code := by
  constructor
  · rfl
  · have hne : ("cpp" : String) = "python" ↔ False := by simp
    unfold format_code format_cpp_spec
    rw [if_neg (by simp)]
    rw [cppSpecStep_foldl (splitNL code) 0 []]
    simp

/-- Claim C6: the Lang-B formatter is idempotent — formatting already
formatted Lang-B text is the identity. -/
theorem claim_C6_formatter_idempotent (code : String) :
    format_code (format_code code "cpp") "cpp" = format_code code "cpp" := by
  unfold format_code
  rw [if_neg (by simp), if_neg (by simp)]
  have hsplit : splitNL (joinSep "\n" (cppFormatLines 0 (splitNL code)))
      = cppFormatLines 0 (splitNL code) :=
    splitNL_joinSep _ (cppFormatLines_ne_nil (splitNL_ne_nil code) 0)
      (cppFormatLines_no_newline (splitNL_no_newline code) 0)
  rw [hsplit, cppFormatLines_idem]

/-- Claim C3 counterexample: the claim asserts that both validators reject
the empty string with a non-empty message, but `validate_python_code("")`
returns ok (the empty string parses as an empty module), so the conjunction
fails at the concrete input `""`. -/
theorem claim_C3_counterexample :
    ¬ ((validate_python_code ast_parse_empty).1 = false ∧
       (validate_python_code ast_parse_empty).2 ≠ "" ∧
       (validate_cpp_code "").1 = false ∧
       (validate_cpp_code "").2 ≠ "") := by
  decide

/-- Claim C3 (amended): on empty input, `validate_cpp_code` returns false
with a non-empty message (the first missing required element, `;`), while
`validate_python_code` returns true with message `Valid Python code` because
the empty string parses as an empty module; neither raises — both are total
and return a pair. -/
theorem claim_C3_empty_input :
    validate_python_code ast_parse_empty = (true, "Valid Python code") ∧
    validate_cpp_code "" = (false, "Invalid C++ code: Missing required element ';'") ∧
    (validate_cpp_code "").2 ≠ "" := by
  decide

/-- Claim C4: neither translator propagates a failure to the caller.  In the
embedding a raised exception is an `Except.error`: `python_to_cpp` turns any
failure of its body (the only reachable one is a parse failure) into the
single-line `Error converting Python to C++: ...` diagnostic and otherwise
returns the translation; the diagnostic adds no newline beyond those in the
message.  The body of `cpp_to_python` is total, so its handler — which would
produce the `Error converting C++ to Python: ...` diagnostic — is dead and
the function always returns the joined rewritten lines. -/
theorem claim_C4_exception_policy (addr e : String) (m : List PyStmt) (s : String) :
    python_to_cpp addr (Except.error e) = "Error converting Python to C++: " ++ e ∧
    strStarts "Error converting" (python_to_cpp addr (Except.error e)) = true ∧
    occCountS "\n" (python_to_cpp addr (Except.error e)) = occCountS "\n" e ∧
    python_to_cpp addr (Except.ok m) = python_to_cpp_translate addr m ∧
    cpp_to_python_catch (Except.error e) = "Error converting C++ to Python: " ++ e ∧
    strStarts "Error converting" (cpp_to_python_catch (Except.error e)) = true ∧
    cpp_to_python_inner s = Except.ok (cpp_to_python s) := by
  refine ⟨rfl, ?_, ?_, rfl, rfl, ?_, rfl⟩
  · show ("Error converting".data.isPrefixOf
      ("Error converting Python to C++: " ++ e).data) = true
    rw [List.isPrefixOf_iff_prefix]
    refine ⟨" Python to C++: ".data ++ e.data, ?_⟩
    rw [data_append, ← List.append_assoc]
    congr 1
  · show occCount ['\n'] ("Error converting Python to C++: " ++ e).data
      = occCount ['\n'] e.data
    rw [data_append]
    exact occCount_inert_prepend (by simp) _ _ (by decide)
  · show ("Error converting".data.isPrefixOf
      ("Error converting C++ to Python: " ++ e).data) = true
    rw [List.isPrefixOf_iff_prefix]
    refine ⟨" C++ to Python: ".data ++ e.data, ?_⟩
    rw [data_append, ← List.append_assoc]
    congr 1

set_option maxRecDepth 40000 in
/-- Claim C8: translating `print(1 + 2)` yields output containing the line
`std::cout << (1 + 2) << std::endl;` — the sum parenthesized — and the
trivial entry-point stub. -/
theorem claim_C8_print_sum (addr : String) :
    "std::cout << (1 + 2) << std::endl;"
        ∈ splitNL (python_to_cpp addr (Except.ok moduleC8)) ∧
    hasSub mainStub (python_to_cpp addr (Except.ok moduleC8)) = true := by
  have h : python_to_cpp addr (Except.ok moduleC8) =
      "#include <iostream>\n#include <string>\n\nstd::cout << (1 + 2) << std::endl;\n\nint main() \x7b\n    // Your code will be executed here\n    return 0;\n\x7d" := rfl
  rw [h]
  exact ⟨by decide, by decide⟩

set_option maxRecDepth 40000 in
/-- Claim C9: translating `def add(a, b): return a + b` renders the function
header with the generic placeholder type `auto` for each unannotated
parameter and the default no-value return type `void`, and the body line
`return (a + b);`. -/
theorem claim_C9_function_def (addr : String) :
    "void add(auto a, auto b) \x7b"
        ∈ splitNL (python_to_cpp addr (Except.ok moduleC9)) ∧
    "    return (a + b);"
        ∈ splitNL (python_to_cpp addr (Except.ok moduleC9)) := by
  have h : python_to_cpp addr (Except.ok moduleC9) =
      "#include <iostream>\n#include <string>\n\nvoid add(auto a, auto b) \x7b\n    return (a + b);\n\x7d\n\n\nint main() \x7b\n    // Your code will be executed here\n    return 0;\n\x7d" := rfl
  rw [h]
  exact ⟨by decide, by decide⟩

set_option maxRecDepth 40000 in
/-- Claim C10: translating `print()` emits the malformed line
`std::cout <<  << std::endl;` — joining the empty argument list leaves an
empty operand between the two stream-insertion operators — rather than an
error or a well-formed output statement. -/
theorem claim_C10_empty_print (addr : String) :
    "std::cout <<  << std::endl;"
        ∈ splitNL (python_to_cpp addr (Except.ok moduleC10)) := by
  have h : python_to_cpp addr (Except.ok moduleC10) =
      "#include <iostream>\n#include <string>\n\nstd::cout <<  << std::endl;\n\nint main() \x7b\n    // Your code will be executed here\n    return 0;\n\x7d" := rfl
  rw [h]
  decide

set_option maxRecDepth 40000 in
/-- Claim C2 counterexample: the claim's literal fails — the entire input is
one line containing the entry-point signature `int main()`, so `cpp_to_python`
drops it (and with it the whole program), producing the empty string instead
of `x = 5` followed by `print(x)`. -/
theorem claim_C2_counterexample :
    ¬ (cpp_to_python cppLitC2 = "x = 5\nprint(x)") := by
  decide

set_option maxRecDepth 40000 in
/-- Claim C2 (amended): a line containing the entry-point signature switches
the translator into skip mode without counting that line's braces; while in
skip mode each line's brace-open/close counts are added to the running count
and the line is dropped, skip mode ending after a line exactly when the count
is zero; consequently, for the Lang-B input
`int main() { int x = 5; std::cout << x << std::endl; return 0; }` — a single
line containing the signature — the whole input is skipped and the output is
the empty string. -/
theorem claim_C2_entry_point_skip :
    cpp_to_python cppLitC2 = "" ∧
    (∀ (st : CppState) (l : String),
       strStarts "#include" (pyStrip l) = false →
       pyStrip l ≠ "" →
       hasSub "int main()" (pyStrip l) = true →
       cppStep st l = { st with in_main := true }) ∧
    (∀ (st : CppState) (l : String),
       st.in_main = true →
       strStarts "#include" (pyStrip l) = false →
       pyStrip l ≠ "" →
       hasSub "int main()" (pyStrip l) = false →
       cppStep st l =
         { st with
           brace := st.brace + ((pyStrip l).data.count '{' : Int)
                      - ((pyStrip l).data.count '}' : Int),
           in_main := if st.brace + ((pyStrip l).data.count '{' : Int)
                      - ((pyStrip l).data.count '}' : Int) = 0
                      then false else true }) := by
  refine ⟨by decide, ?_, ?_⟩
  · intro st l h1 h2 h3
    simp [cppStep, h1, h2, h3]
  · intro st l h0 h1 h2 h3
    simp [cppStep, h0, h1, h2, h3]

set_option maxRecDepth 40000 in
/-- Witness for the amended claim C2: the skip-mode facts applied at
concrete states and lines. -/
theorem claim_C2_entry_point_skip_witness :
    cppStep ⟨false, 0, []⟩ "int main() \x7b" = ⟨true, 0, []⟩ ∧
    cppStep ⟨true, 1, []⟩ "\x7d" = ⟨false, 0, []⟩ := by
  constructor
  · have h := claim_C2_entry_point_skip.2.1 ⟨false, 0, []⟩ "int main() \x7b"
      (by decide) (by decide) (by decide)
    rw [h]
  · have h := claim_C2_entry_point_skip.2.2 ⟨true, 1, []⟩ "\x7d"
      rfl (by decide) (by decide) (by decide)
    rw [h]
    decide

theorem mem_setAdd_of_mem {x y : String} {acc : List String} (h : x ∈ acc) :
    x ∈ setAdd acc y := by
  unfold setAdd
  split
  · exact h
  · exact List.mem_append_left _ h

theorem mem_setAdd_self (y : String) (acc : List String) : y ∈ setAdd acc y := by
  unfold setAdd
  split
  · assumption
  · simp

theorem mem_importAdds_of_mem {x : String} {acc : List String} (mn : String)
    (h : x ∈ acc) : x ∈ importAdds acc mn := by
  unfold importAdds
  split_ifs <;> first | exact mem_setAdd_of_mem h | exact h

theorem mem_foldl_importAdds_of_mem {x : String} :
    ∀ (names : List String) (acc : List String), x ∈ acc →
      x ∈ names.foldl importAdds acc := by
  intro names
  induction names with
  | nil => intro acc h; exact h
  | cons n rest ih =>
    intro acc h
    exact ih (importAdds acc n) (mem_importAdds_of_mem n h)

mutual

theorem mem_walkStmt_of_mem {x : String} :
    ∀ (acc : List String) (s : PyStmt), x ∈ acc → x ∈ walkStmtIncludes acc s
  | acc, .imprt names => fun hx => mem_foldl_importAdds_of_mem names acc hx
  | acc, .importFrom (some mn) => fun hx => mem_importAdds_of_mem mn hx
  | _, .importFrom none => fun hx => hx
  | acc, .functionDef _ _ body => fun hx => mem_walkList_of_mem acc body hx
  | acc, .ifStmt _ body orelse => fun hx =>
      mem_walkList_of_mem (walkListIncludes acc body) orelse
        (mem_walkList_of_mem acc body hx)
  | _, .ret _ => fun hx => hx
  | _, .exprStmt _ => fun hx => hx
  | _, .assign _ _ => fun hx => hx

theorem mem_walkList_of_mem {x : String} :
    ∀ (acc : List String) (l : List PyStmt), x ∈ acc → x ∈ walkListIncludes acc l
  | _, [] => fun hx => hx
  | acc, s :: rest => fun hx =>
      mem_walkList_of_mem (walkStmtIncludes acc s) rest (mem_walkStmt_of_mem acc s hx)

end

theorem mem_foldl_importAdds_of_mentions {mn hdr : String}
    (hAdd : ∀ acc, importAdds acc mn = setAdd acc hdr) :
    ∀ (names : List String) (acc : List String), mn ∈ names →
      hdr ∈ names.foldl importAdds acc := by
  intro names
  induction names with
  | nil => intro acc h; simp at h
  | cons n rest ih =>
    intro acc h
    rcases List.mem_cons.mp h with h1 | h1
    · subst h1
      exact mem_foldl_importAdds_of_mem rest _ (hAdd acc ▸ mem_setAdd_self hdr acc)
    · exact ih (importAdds acc n) h1

mutual

theorem mem_walkStmt_of_mentions {mn hdr : String}
    (hAdd : ∀ acc, importAdds acc mn = setAdd acc hdr) :
    ∀ (acc : List String) (s : PyStmt),
      stmtMentionsImport mn s = true → hdr ∈ walkStmtIncludes acc s
  | acc, .imprt names => fun h =>
      mem_foldl_importAdds_of_mentions hAdd names acc (by
        have : names.contains mn = true := h
        simpa using this)
  | acc, .importFrom m => fun h => by
      have hm : m = some mn := by
        have : (m == some mn) = true := h
        exact eq_of_beq this
      subst hm
      show hdr ∈ importAdds acc mn
      rw [hAdd acc]
      exact mem_setAdd_self hdr acc
  | acc, .functionDef _ _ body => fun h =>
      mem_walkList_of_mentions hAdd acc body h
  | acc, .ifStmt _ body orelse => fun h => by
      have h' : listMentionsImport mn body = true ∨ listMentionsImport mn orelse = true := by
        have : (listMentionsImport mn body || listMentionsImport mn orelse) = true := h
        simpa using this
      rcases h' with h1 | h1
      · exact mem_walkList_of_mem _ orelse (mem_walkList_of_mentions hAdd acc body h1)
      · exact mem_walkList_of_mentions hAdd (walkListIncludes acc body) orelse h1
  | _, .ret _ => fun h => by simp [stmtMentionsImport] at h
  | _, .exprStmt _ => fun h => by simp [stmtMentionsImport] at h
  | _, .assign _ _ => fun h => by simp [stmtMentionsImport] at h

theorem mem_walkList_of_mentions {mn hdr : String}
    (hAdd : ∀ acc, importAdds acc mn = setAdd acc hdr) :
    ∀ (acc : List String) (l : List PyStmt),
      listMentionsImport mn l = true → hdr ∈ walkListIncludes acc l
  | _, [] => fun h => by simp [listMentionsImport] at h
  | acc, s :: rest => fun h => by
      have h' : stmtMentionsImport mn s = true ∨ listMentionsImport mn rest = true := by
        have : (stmtMentionsImport mn s || listMentionsImport mn rest) = true := h
        simpa using this
      rcases h' with h1 | h1
      · exact mem_walkList_of_mem _ rest (mem_walkStmt_of_mentions hAdd acc s h1)
      · exact mem_walkList_of_mentions hAdd (walkStmtIncludes acc s) rest h1

end

theorem mem_setAdd_universe {acc : List String} {y : String}
    (hacc : ∀ x ∈ acc, x ∈ includeUniverse) (hy : y ∈ includeUniverse) :
    ∀ x ∈ setAdd acc y, x ∈ includeUniverse := by
  intro x hx
  unfold setAdd at hx
  split at hx
  · exact hacc x hx
  · rcases List.mem_append.mp hx with h | h
    · exact hacc x h
    · simp at h
      exact h ▸ hy

theorem mem_importAdds_universe {acc : List String} {mn : String}
    (hacc : ∀ x ∈ acc, x ∈ includeUniverse) :
    ∀ x ∈ importAdds acc mn, x ∈ includeUniverse := by
  unfold importAdds
  split_ifs
  · exact mem_setAdd_universe hacc (by decide)
  · exact mem_setAdd_universe hacc (by decide)
  · exact mem_setAdd_universe hacc (by decide)
  · exact hacc

theorem mem_foldl_importAdds_universe :
    ∀ (names : List String) (acc : List String),
      (∀ x ∈ acc, x ∈ includeUniverse) →
      ∀ x ∈ names.foldl importAdds acc, x ∈ includeUniverse := by
  intro names
  induction names with
  | nil => intro acc hacc; exact hacc
  | cons n rest ih =>
    intro acc hacc
    exact ih (importAdds acc n) (mem_importAdds_universe hacc)

mutual

theorem walkStmt_universe :
    ∀ (acc : List String) (s : PyStmt),
      (∀ x ∈ acc, x ∈ includeUniverse) →
      ∀ x ∈ walkStmtIncludes acc s, x ∈ includeUniverse
  | acc, .imprt names => fun hacc => mem_foldl_importAdds_universe names acc hacc
  | acc, .importFrom (some mn) => fun hacc => mem_importAdds_universe hacc
  | _, .importFrom none => fun hacc => hacc
  | acc, .functionDef _ _ body => fun hacc => walkList_universe acc body hacc
  | acc, .ifStmt _ body orelse => fun hacc =>
      walkList_universe (walkListIncludes acc body) orelse (walkList_universe acc body hacc)
  | _, .ret _ => fun hacc => hacc
  | _, .exprStmt _ => fun hacc => hacc
  | _, .assign _ _ => fun hacc => hacc

theorem walkList_universe :
    ∀ (acc : List String) (l : List PyStmt),
      (∀ x ∈ acc, x ∈ includeUniverse) →
      ∀ x ∈ walkListIncludes acc l, x ∈ includeUniverse
  | _, [] => fun hacc => hacc
  | acc, s :: rest => fun hacc =>
      walkList_universe (walkStmtIncludes acc s) rest (walkStmt_universe acc s hacc)

end

theorem collectIncludes_universe (m : List PyStmt) :
    ∀ x ∈ collectIncludes m, x ∈ includeUniverse :=
  walkList_universe _ m (by decide)

theorem listLeB_total : ∀ (x y : List Char), listLeB x y = true ∨ listLeB y x = true := by
  intro x
  induction x with
  | nil => intro y; left; rfl
  | cons a as ih =>
    intro y
    cases y with
    | nil => right; rfl
    | cons b bs =>
      by_cases hab : a.toNat < b.toNat
      · left; simp [listLeB, hab]
      · by_cases hba : b.toNat < a.toNat
        · right; simp [listLeB, hba, hab]
        · rcases ih bs with h | h
          · left; simp [listLeB, hab, hba, h]
          · right; simp [listLeB, hab, hba, h]

theorem strLeB_total (a b : String) : strLeB a b = true ∨ strLeB b a = true :=
  listLeB_total a.data b.data

theorem mem_insertSorted {y x : String} :
    ∀ l : List String, y ∈ insertSorted x l ↔ y = x ∨ y ∈ l := by
  intro l
  induction l with
  | nil => simp [insertSorted]
  | cons z zs ih =>
    unfold insertSorted
    split
    · simp
    · simp only [List.mem_cons, ih]
      tauto

theorem mem_sortStrings {x : String} :
    ∀ l : List String, x ∈ sortStrings l ↔ x ∈ l := by
  intro l
  induction l with
  | nil => simp [sortStrings]
  | cons z zs ih =>
    simp only [sortStrings, mem_insertSorted, ih, List.mem_cons]

theorem chain_insertSorted {x : String} :
    ∀ l : List String, List.Chain' (fun a b => strLeB a b = true) l →
      List.Chain' (fun a b => strLeB a b = true) (insertSorted x l) := by
  intro l
  induction l with
  | nil => intro _; simp [insertSorted]
  | cons y ys ih =>
    intro hch
    unfold insertSorted
    split
    · rename_i hxy
      exact List.chain'_cons.mpr ⟨hxy, hch⟩
    · rename_i hxy
      have hyx : strLeB y x = true := by
        rcases strLeB_total x y with h | h
        · exact absurd h hxy
        · exact h
      have hch' := (List.chain'_cons'.mp hch).2
      have htail := ih hch'
      refine List.chain'_cons'.mpr ⟨?_, htail⟩
      intro z hz
      cases ys with
      | nil =>
        simp only [insertSorted, List.head?_cons, Option.mem_def,
          Option.some.injEq] at hz
        subst hz
        exact hyx
      | cons w ws =>
        have hyw : strLeB y w = true := (List.chain'_cons.mp hch).1
        unfold insertSorted at hz
        split at hz
        · simp only [List.head?_cons, Option.mem_def, Option.some.injEq] at hz
          subst hz
          exact hyx
        · simp only [List.head?_cons, Option.mem_def, Option.some.injEq] at hz
          subst hz
          exact hyw

theorem chain_sortStrings :
    ∀ l : List String, List.Chain' (fun a b => strLeB a b = true) (sortStrings l) := by
  intro l
  induction l with
  | nil => simp [sortStrings]
  | cons z zs ih => exact chain_insertSorted _ ih

theorem mem_includesList_iff {x : String} (m : List PyStmt) :
    x ∈ includesList m ↔ x ∈ collectIncludes m := mem_sortStrings _

theorem occCount_joinSepNL {p : List Char} (hp : p ≠ []) (hnl : '\n' ∉ p) :
    ∀ ls : List String,
      occCount p (joinSep "\n" ls).data = (ls.map (fun l => occCount p l.data)).sum := by
  intro ls
  induction ls with
  | nil => simp [joinSep, occCount_nil hp]
  | cons x xs ih =>
    cases xs with
    | nil => simp [joinSep]
    | cons y ys =>
      have e1 : (joinSep "\n" (x :: y :: ys)).data
          = x.data ++ '\n' :: (joinSep "\n" (y :: ys)).data := by
        show (x ++ "\n" ++ joinSep "\n" (y :: ys)).data = _
        rw [data_append, data_append]
        simp
      rw [e1, occCount_append_sep hp hnl, ih]
      simp

theorem hasSub_eq_false_of_occ {p s : String} (hp : p.data ≠ [])
    (h : occCount p.data s.data = 0) : hasSub p s = false :=
  isInfixOfC_eq_false_of_occCount hp s.data h

theorem includesEntry_no_main (m : List PyStmt) :
    hasSub "main" (includesEntry m) = false := by
  apply hasSub_eq_false_of_occ (by decide)
  unfold includesEntry
  rw [occCount_joinSepNL (by decide) (by decide)]
  apply List.sum_eq_zero
  intro n hn
  rcases List.mem_map.mp hn with ⟨l, hl, rfl⟩
  rcases List.mem_map.mp hl with ⟨inc, hinc, rfl⟩
  have huniv : inc ∈ includeUniverse :=
    collectIncludes_universe m inc ((mem_includesList_iff m).mp hinc)
  have : inc = "<iostream>" ∨ inc = "<string>" ∨ inc = "<cmath>"
      ∨ inc = "<random>" ∨ inc = "<ctime>" := by
    simpa [includeUniverse] using huniv
  rcases this with rfl | rfl | rfl | rfl | rfl <;> decide

/-- String equality from equality of the underlying character lists. -/
theorem str_ext {a b : String} (h : a.data = b.data) : a = b :=
  congrArg String.mk h

theorem joinSep_blank_head (a x : String) (xs : List String) :
    joinSep "\n" (a :: "" :: x :: xs) = a ++ "\n\n" ++ joinSep "\n" (x :: xs) := by
  apply str_ext
  show ((a ++ "\n") ++ joinSep "\n" ("" :: x :: xs)).data = _
  rw [show joinSep "\n" ("" :: x :: xs) = ("" ++ "\n") ++ joinSep "\n" (x :: xs) from rfl]
  simp [data_append]

/-- Claim C7: for every parsed module, the translator output begins with the
collected include directives rendered in sorted order, one per line, followed
by a blank line; the include set always contains `<iostream>` and `<string>`;
and an import of `math`, `random` or `time` (plain or from-import, anywhere
in the tree) puts `<cmath>`, `<random>` or `<ctime>` respectively into the
set. -/
theorem claim_C7_includes (addr : String) (m : List PyStmt) :
    (∃ rest, python_to_cpp addr (Except.ok m) = includesEntry m ++ "\n\n" ++ rest) ∧
    List.Chain' (fun a b => strLeB a b = true) (includesList m) ∧
    "<iostream>" ∈ includesList m ∧
    "<string>" ∈ includesList m ∧
    (listMentionsImport "math" m = true → "<cmath>" ∈ includesList m) ∧
    (listMentionsImport "random" m = true → "<random>" ∈ includesList m) ∧
    (listMentionsImport "time" m = true → "<ctime>" ∈ includesList m) := by
  refine ⟨?_, chain_sortStrings _, ?_, ?_, ?_, ?_, ?_⟩
  · -- structure of the output head
    have hout : python_to_cpp addr (Except.ok m) = python_to_cpp_translate addr m := rfl
    rw [hout]
    unfold python_to_cpp_translate
    have hmain := includesEntry_no_main m
    split
    · rename_i hany
      -- some entry mentions main; the includes entry and the blank entry do
      -- not, so the body-pass entries are nonempty
      unfold python_to_cpp_body at hany ⊢
      cases hrest : linesOfList (moduleNodeLines addr) m with
      | nil =>
        rw [hrest] at hany
        simp only [List.any_cons, List.any_nil, hmain, Bool.false_or,
          Bool.or_false] at hany
        exact absurd hany (by decide)
      | cons x xs =>
        exact ⟨joinSep "\n" (x :: xs), joinSep_blank_head _ x xs⟩
    · unfold python_to_cpp_body
      cases hrest : linesOfList (moduleNodeLines addr) m with
      | nil => exact ⟨mainStub, joinSep_blank_head _ mainStub []⟩
      | cons x xs =>
        exact ⟨joinSep "\n" (x :: (xs ++ [mainStub])),
          joinSep_blank_head _ x (xs ++ [mainStub])⟩
  · exact (mem_includesList_iff m).mpr
      (mem_walkList_of_mem _ m (by decide))
  · exact (mem_includesList_iff m).mpr
      (mem_walkList_of_mem _ m (by decide))
  · intro h
    exact (mem_includesList_iff m).mpr
      (mem_walkList_of_mentions
        (show ∀ acc, importAdds acc "math" = setAdd acc "<cmath>" from
          fun acc => by simp [importAdds]) _ m h)
  · intro h
    exact (mem_includesList_iff m).mpr
      (mem_walkList_of_mentions
        (show ∀ acc, importAdds acc "random" = setAdd acc "<random>" from
          fun acc => by simp [importAdds]) _ m h)
  · intro h
    exact (mem_includesList_iff m).mpr
      (mem_walkList_of_mentions
        (show ∀ acc, importAdds acc "time" = setAdd acc "<ctime>" from
          fun acc => by simp [importAdds]) _ m h)

set_option maxRecDepth 40000 in
/-- Witness for claim C7: the implications discharged at a concrete module
importing `math`, `random` and `time`. -/
theorem claim_C7_includes_witness :
    "<cmath>" ∈ includesList moduleC7 ∧
    "<random>" ∈ includesList moduleC7 ∧
    "<ctime>" ∈ includesList moduleC7 := by
  refine ⟨?_, ?_, ?_⟩
  · exact (claim_C7_includes "0x0" moduleC7).2.2.2.2.1 (by decide)
  · exact (claim_C7_includes "0x0" moduleC7).2.2.2.2.2.1 (by decide)
  · exact (claim_C7_includes "0x0" moduleC7).2.2.2.2.2.2 (by decide)

/-- Characters that can occur inside an occurrence of `main`. -/
theorem countS_append (c : Char) (s t : String) :
    (s ++ t).data.count c = s.data.count c + t.data.count c := by
  rw [data_append, List.count_append]

theorem occS_snoc_head {s t : String}
    (hhead : ∀ c, t.data.head? = some c → c ∉ "main".data) :
    occCountS "main" (s ++ t) = occCountS "main" s + occCountS "main" t := by
  unfold occCountS
  rw [data_append]
  cases ht : t.data with
  | nil => simp [occCount_nil (show "main".data ≠ [] by decide)]
  | cons d rest =>
    have hd : d ∉ "main".data := hhead d (by rw [ht]; rfl)
    rw [occCount_append_sep (by decide) hd,
      occCount_cons_sep (show "main".data ≠ [] by decide) hd rest]

theorem getLast?_append_ne {α : Type} (l l' : List α) (h : l' ≠ []) :
    (l ++ l').getLast? = l'.getLast? := by
  rw [List.getLast?_append]
  cases hl : l'.getLast? with
  | none =>
    exfalso
    cases l' with
    | nil => exact h rfl
    | cons a t => simp [List.getLast?_eq_none_iff] at hl
  | some a => rfl

theorem occS_snoc_last {t s : String}
    (hlast : ∀ c, t.data.getLast? = some c → c ∉ "main".data) :
    occCountS "main" (t ++ s) = occCountS "main" t + occCountS "main" s := by
  unfold occCountS
  rw [data_append]
  rcases List.eq_nil_or_concat t.data with ht | ⟨a, d, ht⟩
  · rw [ht]
    simp [occCount_nil (show "main".data ≠ [] by decide)]
  · rw [List.concat_eq_append] at ht
    have hd : d ∉ "main".data := hlast d (by rw [ht, List.getLast?_concat])
    rw [ht, List.append_assoc]
    show occCount _ (a ++ d :: s.data) = _
    rw [occCount_append_sep (by decide) hd]
    have h2 : occCount "main".data (a ++ [d]) = occCount "main".data a := by
      have := @occCount_append_sep "main".data d (by decide) hd a []
      simpa [occCount_nil (show "main".data ≠ [] by decide)] using this
    rw [h2]

theorem CleanS_app_lit {s lit : String} (hs : CleanS s) (hlit : CleanS lit)
    (hhead : ∀ c, lit.data.head? = some c → c ∉ "main".data) :
    CleanS (s ++ lit) :=
  ⟨by rw [occS_snoc_head hhead, hs.1, hlit.1],
   by rw [countS_append, hs.2.1, hlit.2.1],
   by rw [countS_append, hs.2.2, hlit.2.2]⟩

theorem CleanS_lit_app {lit s : String} (hlit : CleanS lit) (hs : CleanS s)
    (hlast : ∀ c, lit.data.getLast? = some c → c ∉ "main".data) :
    CleanS (lit ++ s) :=
  ⟨by rw [occS_snoc_last hlast, hs.1, hlit.1],
   by rw [countS_append, hs.2.1, hlit.2.1],
   by rw [countS_append, hs.2.2, hlit.2.2]⟩

/-- The literal glue pieces the translator uses all end in a character that
cannot occur inside `main`, so a payload may follow them safely. -/
theorem safeEnd_app_lit {s lit : String} (hne : lit.data ≠ [])
    (hlast : ∀ c, lit.data.getLast? = some c → c ∉ "main".data) :
    ∀ c, (s ++ lit).data.getLast? = some c → c ∉ "main".data := by
  intro c hc
  rw [data_append, getLast?_append_ne _ _ hne] at hc
  exact hlast c hc

theorem CleanS_joinSep {sep : String} (hsep : CleanS sep)
    (hne : sep.data ≠ [])
    (hhead : ∀ c, sep.data.head? = some c → c ∉ "main".data)
    (hlast : ∀ c, sep.data.getLast? = some c → c ∉ "main".data) :
    ∀ ls : List String, (∀ l ∈ ls, CleanS l) → CleanS (joinSep sep ls) := by
  intro ls
  induction ls with
  | nil => intro _; exact ⟨rfl, rfl, rfl⟩
  | cons x xs ih =>
    intro h
    cases xs with
    | nil => exact h x (List.mem_cons_self x [])
    | cons y ys =>
      have hx : CleanS x := h x (List.mem_cons_self x _)
      have hrest : CleanS (joinSep sep (y :: ys)) :=
        ih (fun l hl => h l (List.mem_cons_of_mem x hl))
      show CleanS ((x ++ sep) ++ joinSep sep (y :: ys))
      exact CleanS_lit_app (CleanS_app_lit hx hsep hhead) hrest
        (safeEnd_app_lit hne hlast)

/-- Decimal renderings contain only digits and a sign: clean. -/
theorem natToCharsAux_subset :
    ∀ (fuel n : Nat) (acc : List Char), ∀ c ∈ natToCharsAux fuel n acc,
      c ∈ acc ∨ c ∈ "0123456789".data := by
  intro fuel
  induction fuel with
  | zero => intro n acc c hc; exact Or.inl hc
  | succ f ih =>
    intro n acc c hc
    unfold natToCharsAux at hc
    split at hc
    · rcases List.mem_cons.mp hc with h | h
      · right
        subst h
        unfold digitChar
        split <;> decide
      · exact Or.inl h
    · rcases ih (n / 10) (digitChar (n % 10) :: acc) c hc with h | h
      · rcases List.mem_cons.mp h with h1 | h1
        · right
          subst h1
          unfold digitChar
          split <;> decide
        · exact Or.inl h1
      · exact Or.inr h

theorem intToChars_subset (n : Int) :
    ∀ c ∈ intToChars n, c ∈ "-0123456789".data := by
  intro c hc
  cases n with
  | ofNat k =>
    rcases natToCharsAux_subset (k + 1) k [] c hc with h | h
    · simp at h
    · exact List.mem_cons_of_mem '-' h
  | negSucc k =>
    rcases List.mem_cons.mp hc with h | h
    · subst h; decide
    · rcases natToCharsAux_subset (k + 2) (k + 1) [] c h with h1 | h1
      · simp at h1
      · exact List.mem_cons_of_mem '-' h1

theorem intToChars_cleanS (n : Int) : CleanS (String.mk (intToChars n)) := by
  have hsub := intToChars_subset n
  have key : ∀ x ∈ ("-0123456789".data), x ∉ "main".data := by decide
  refine ⟨?_, ?_, ?_⟩
  · exact occCount_inert (by decide) (fun c hc => key c (hsub c hc))
  · exact List.count_eq_zero.mpr (fun hmem => absurd (hsub '{' hmem) (by decide))
  · exact List.count_eq_zero.mpr (fun hmem => absurd (hsub '}' hmem) (by decide))

theorem pyObjRepr_cleanS {cls addr : String} (hcls : CleanS cls)
    (haddr : CleanS addr) : CleanS (pyObjRepr cls addr) := by
  have s1 : CleanS ("<ast." ++ cls) := CleanS_lit_app (by decide) hcls (by decide)
  have s2 : CleanS (("<ast." ++ cls) ++ " object at ") :=
    CleanS_app_lit s1 (by decide) (by decide)
  have s3 : CleanS ((("<ast." ++ cls) ++ " object at ") ++ addr) :=
    CleanS_lit_app s2 haddr (safeEnd_app_lit (by decide) (by decide))
  exact CleanS_app_lit s3 (by decide) (by decide)

theorem andB {a b : Bool} (h : (a && b) = true) : a = true ∧ b = true := by
  simpa using h

mutual

theorem cpe_cleanS {addr : String} (haddr : CleanS addr) :
    ∀ e : PyExpr, cleanE e = true → CleanS (convert_python_expr addr e)
  | .num n, _ => intToChars_cleanS n
  | .str s, h => by
      have hs : CleanS s := of_decide_eq_true h
      exact CleanS_app_lit (CleanS_lit_app (by decide) hs (by decide))
        (by decide) (by decide)
  | .name id, h => of_decide_eq_true h
  | .binop l op r, h => by
      have h' := andB (show (cleanE l && cleanE r) = true from h)
      have hl : CleanS (convert_python_expr addr l) := cpe_cleanS haddr l h'.1
      have hr : CleanS (convert_python_expr addr r) := cpe_cleanS haddr r h'.2
      have hop : CleanS (binopStr op) := by cases op <;> decide
      have hophead : ∀ c, (binopStr op).data.head? = some c → c ∉ "main".data := by
        cases op <;> decide
      have s1 := CleanS_lit_app (show CleanS "(" by decide) hl (by decide)
      have s2 := CleanS_app_lit s1 (show CleanS " " by decide) (by decide)
      have s3 := CleanS_app_lit s2 hop hophead
      have s4 := CleanS_app_lit s3 (show CleanS " " by decide) (by decide)
      have s5 := CleanS_lit_app s4 hr (safeEnd_app_lit (by decide) (by decide))
      exact CleanS_app_lit s5 (show CleanS ")" by decide) (by decide)
  | .compare l ops comps, h => by
      have h' := andB (show (cleanE l && cleanEList comps) = true from h)
      have hl : CleanS (convert_python_expr addr l) := cpe_cleanS haddr l h'.1
      cases comps with
      | nil => exact pyObjRepr_cleanS (by decide) haddr
      | cons c0 cs =>
        have hc0 : CleanS (convert_python_expr addr c0) :=
          cpe_cleanS haddr c0
            (andB (show (cleanE c0 && cleanEList cs) = true from h'.2)).1
        have hJ : CleanS (joinSep " " (ops.map cmpStr)) := by
          refine CleanS_joinSep (by decide) (by decide) (by decide) (by decide)
            _ ?_
          intro x hx
          rcases List.mem_map.mp hx with ⟨o, _, rfl⟩
          cases o <;> decide
        have s1 := CleanS_lit_app (show CleanS "(" by decide) hl (by decide)
        have s2 := CleanS_app_lit s1 (show CleanS " " by decide) (by decide)
        have s3 := CleanS_lit_app s2 hJ (safeEnd_app_lit (by decide) (by decide))
        have s4 := CleanS_app_lit s3 (show CleanS " " by decide) (by decide)
        have s5 := CleanS_lit_app s4 hc0 (safeEnd_app_lit (by decide) (by decide))
        exact CleanS_app_lit s5 (show CleanS ")" by decide) (by decide)
  | .call (.name id) args, h => by
      have h' := andB (show (cleanE (.name id) && cleanEList args) = true from h)
      have hid : CleanS id := of_decide_eq_true h'.1
      have hargs : ∀ l ∈ cpeList addr args, CleanS l :=
        cpeList_cleanS haddr args h'.2
      show CleanS (if id = "print" then _ else if id = "input" then _ else _)
      by_cases hp : id = "print"
      · rw [if_pos hp]
        have hJ : CleanS (joinSep " << " (cpeList addr args)) :=
          CleanS_joinSep (by decide) (by decide) (by decide) (by decide) _ hargs
        have s1 := CleanS_lit_app (show CleanS "std::cout << " by decide) hJ
          (by decide)
        exact CleanS_app_lit s1 (show CleanS " << std::endl" by decide) (by decide)
      · rw [if_neg hp]
        by_cases hi : id = "input"
        · rw [if_pos hi]
          cases hm : cpeList addr args with
          | nil => exact (by decide : CleanS ("std::cin >> " ++ "input_var"))
          | cons a rest =>
            have ha : CleanS a := hargs a (by rw [hm]; exact List.mem_cons_self a rest)
            exact CleanS_lit_app (by decide) ha (by decide)
        · rw [if_neg hi]
          have hJ : CleanS (joinSep ", " (cpeList addr args)) :=
            CleanS_joinSep (by decide) (by decide) (by decide) (by decide) _ hargs
          have s1 := CleanS_app_lit hid (show CleanS "(" by decide) (by decide)
          have s2 := CleanS_lit_app s1 hJ (safeEnd_app_lit (by decide) (by decide))
          exact CleanS_app_lit s2 (show CleanS ")" by decide) (by decide)
  | .call (.num k) args, h => cpe_call_other_cleanS haddr (.num k) args h
  | .call (.str s) args, h => cpe_call_other_cleanS haddr (.str s) args h
  | .call (.binop a o b) args, h => cpe_call_other_cleanS haddr (.binop a o b) args h
  | .call (.compare a o cs) args, h => cpe_call_other_cleanS haddr (.compare a o cs) args h
  | .call (.call g gs) args, h => cpe_call_other_cleanS haddr (.call g gs) args h
  | .call (.boolop o vs) args, h => cpe_call_other_cleanS haddr (.boolop o vs) args h
  | .call (.unaryop o v) args, h => cpe_call_other_cleanS haddr (.unaryop o v) args h
  | .boolop op vs, h => by
      have hJ : CleanS (joinSep (" " ++ boolopStr op ++ " ") (cpeList addr vs)) := by
        refine CleanS_joinSep ?_ ?_ ?_ ?_ _ (cpeList_cleanS haddr vs h)
        · cases op <;> decide
        · cases op <;> decide
        · cases op <;> decide
        · cases op <;> decide
      have s1 := CleanS_lit_app (show CleanS "(" by decide) hJ (by decide)
      exact CleanS_app_lit s1 (show CleanS ")" by decide) (by decide)
  | .unaryop op e, h => by
      have he : CleanS (convert_python_expr addr e) := cpe_cleanS haddr e h
      have hop : CleanS (unopStr op) := by cases op <;> decide
      have s1 : CleanS (unopStr op ++ "(") :=
        CleanS_app_lit hop (show CleanS "(" by decide) (by decide)
      have s2 := CleanS_lit_app s1 he (safeEnd_app_lit (by decide) (by decide))
      exact CleanS_app_lit s2 (show CleanS ")" by decide) (by decide)
termination_by e h => (sizeOf e, 1)

/-- The wildcard `call` arm of `convert_python_expr`: the callee is not a
`Name`, so the call renders as callee text followed by the argument list. -/
theorem cpe_call_other_cleanS {addr : String} (haddr : CleanS addr)
    (f : PyExpr) (args : List PyExpr) (h : cleanE (.call f args) = true) :
    CleanS (convert_python_expr addr f ++ "("
      ++ joinSep ", " (cpeList addr args) ++ ")") := by
  have h' := andB (show (cleanE f && cleanEList args) = true from h)
  have hf : CleanS (convert_python_expr addr f) := cpe_cleanS haddr f h'.1
  have hJ : CleanS (joinSep ", " (cpeList addr args)) :=
    CleanS_joinSep (by decide) (by decide) (by decide) (by decide) _
      (cpeList_cleanS haddr args h'.2)
  have s1 := CleanS_app_lit hf (show CleanS "(" by decide) (by decide)
  have s2 := CleanS_lit_app s1 hJ (safeEnd_app_lit (by decide) (by decide))
  exact CleanS_app_lit s2 (show CleanS ")" by decide) (by decide)
termination_by (sizeOf (PyExpr.call f args), 0)

theorem cpeList_cleanS {addr : String} (haddr : CleanS addr) :
    ∀ es : List PyExpr, cleanEList es = true → ∀ l ∈ cpeList addr es, CleanS l
  | [], _ => by intro l hl; simp [cpeList] at hl
  | e :: es, h => by
      intro l hl
      have h' := andB (show (cleanE e && cleanEList es) = true from h)
      rcases List.mem_cons.mp hl with h1 | h1
      · exact h1 ▸ cpe_cleanS haddr e h'.1
      · exact cpeList_cleanS haddr es h'.2 l h1
termination_by es h => (sizeOf es, 0)

end

theorem CleanS.occ {s : String} (h : CleanS s) : occMain s = 0 := h.1

theorem occZ_app_lit {s lit : String} (hs : occMain s = 0) (hlit : occMain lit = 0)
    (hhead : ∀ c, lit.data.head? = some c → c ∉ "main".data) :
    occMain (s ++ lit) = 0 := by
  unfold occMain at *
  rw [occS_snoc_head hhead, hs, hlit]

theorem occZ_lit_app {lit s : String} (hlit : occMain lit = 0) (hs : occMain s = 0)
    (hlast : ∀ c, lit.data.getLast? = some c → c ∉ "main".data) :
    occMain (lit ++ s) = 0 := by
  unfold occMain at *
  rw [occS_snoc_last hlast, hs, hlit]

theorem countLines_append (c : Char) (a b : List String) :
    countLines c (a ++ b) = countLines c a + countLines c b := by
  unfold countLines
  rw [List.map_append, List.sum_append]

theorem countLines_cons (c : Char) (l : String) (ls : List String) :
    countLines c (l :: ls) = l.data.count c + countLines c ls := rfl

theorem countLines_nil (c : Char) : countLines c [] = 0 := rfl

theorem LinesOk_nil : LinesOk [] := ⟨by intro l hl; simp at hl, rfl⟩

theorem LinesOk_append {a b : List String} (ha : LinesOk a) (hb : LinesOk b) :
    LinesOk (a ++ b) := by
  refine ⟨?_, ?_⟩
  · intro l hl
    rcases List.mem_append.mp hl with h | h
    · exact ha.1 l h
    · exact hb.1 l h
  · rw [countLines_append, countLines_append, ha.2, hb.2]

theorem LinesOk_single_clean {l : String} (h : CleanS l) : LinesOk [l] := by
  refine ⟨?_, ?_⟩
  · intro x hx
    rcases List.mem_cons.mp hx with h1 | h1
    · exact h1 ▸ h.1
    · simp at h1
  · rw [countLines_cons, countLines_cons, countLines_nil, h.2.1, h.2.2]
    rfl

theorem LinesOk_map_clean {α : Type} {f : α → String} {xs : List α}
    (h : ∀ x ∈ xs, CleanS (f x)) : LinesOk (xs.map f) := by
  induction xs with
  | nil => exact LinesOk_nil
  | cons x r ih =>
    rw [List.map_cons, show (f x :: r.map f) = [f x] ++ r.map f from rfl]
    exact LinesOk_append (LinesOk_single_clean (h x (List.mem_cons_self x r)))
      (ih (fun y hy => h y (List.mem_cons_of_mem x hy)))

theorem count_of_cleanS {l : String} (h : CleanS l) (c : Char) (hc : c = '{' ∨ c = '}') :
    l.data.count c = 0 := by
  rcases hc with rfl | rfl
  · exact h.2.1
  · exact h.2.2

/-- Clean rendering of a function parameter. -/
theorem paramStr_cleanS {a : PyArg} (h : cleanArg a = true) : CleanS (paramStr a) := by
  have h' := andB (show (cleanStr a.name &&
      (match a.ann with
       | some (.name id) => cleanStr id
       | _ => true)) = true from h)
  have hname : CleanS a.name := of_decide_eq_true h'.1
  have hann : CleanS (match a.ann with
      | some (.name id) => id
      | _ => "auto") := by
    rcases hha : a.ann with _ | e
    · exact (by decide : CleanS "auto")
    · cases e with
      | name id =>
        have h2 : cleanStr id = true := by
          have h3 := h'.2
          rw [hha] at h3
          exact h3
        exact of_decide_eq_true h2
      | num n => exact (by decide : CleanS "auto")
      | str s => exact (by decide : CleanS "auto")
      | binop a o b => exact (by decide : CleanS "auto")
      | compare a o c => exact (by decide : CleanS "auto")
      | call f as => exact (by decide : CleanS "auto")
      | boolop o vs => exact (by decide : CleanS "auto")
      | unaryop o v => exact (by decide : CleanS "auto")
  show CleanS ((match a.ann with
      | some (.name id) => id
      | _ => "auto") ++ " " ++ a.name)
  exact CleanS_lit_app (CleanS_app_lit hann (by decide) (by decide)) hname
    (safeEnd_app_lit (by decide) (by decide))

theorem cleanArgs_mem :
    ∀ (args : List PyArg), cleanArgs args = true → ∀ a ∈ args, cleanArg a = true := by
  intro args
  induction args with
  | nil => intro _ a ha; simp at ha
  | cons b r ih =>
    intro h a ha
    have h' := andB (show (cleanArg b && cleanArgs r) = true from h)
    rcases List.mem_cons.mp ha with h1 | h1
    · exact h1 ▸ h'.1
    · exact ih h'.2 a h1

theorem params_cleanS :
    ∀ args : List PyArg, cleanArgs args = true →
      CleanS (joinSep ", " (args.map paramStr)) := by
  intro args h
  refine CleanS_joinSep (by decide) (by decide) (by decide) (by decide) _ ?_
  intro x hx
  rcases List.mem_map.mp hx with ⟨a, ha, rfl⟩
  exact paramStr_cleanS (cleanArgs_mem args h a ha)

theorem convert_stmt_fallback_cleanS {addr : String} (haddr : CleanS addr)
    (s : PyStmt) : CleanS (convert_stmt_fallback addr s) := by
  have hcls : CleanS (pyStmtClass s) := by
    cases s with
    | functionDef a b c => exact (by decide : CleanS "FunctionDef")
    | ret v => exact (by decide : CleanS "Return")
    | exprStmt v => exact (by decide : CleanS "Expr")
    | assign t v => exact (by decide : CleanS "Assign")
    | ifStmt t b o => exact (by decide : CleanS "If")
    | imprt n => exact (by decide : CleanS "Import")
    | importFrom m => exact (by decide : CleanS "ImportFrom")
  exact pyObjRepr_cleanS hcls haddr

theorem cpeList_eq_map (addr : String) :
    ∀ es : List PyExpr, cpeList addr es = es.map (convert_python_expr addr) := by
  intro es
  induction es with
  | nil => rfl
  | cons e r ih => simp only [cpeList, List.map_cons, ih]

/-- Lines of one statement inside a function body: no `main` occurrence in any
line, equal numbers of open and close braces overall. -/
theorem funcStmtLines_ok {addr : String} (haddr : CleanS addr) :
    ∀ s : PyStmt, cleanSt s = true → LinesOk (funcStmtLines addr s) := by
  intro s h
  cases s with
  | ret v =>
    cases v with
    | none => exact LinesOk_single_clean (by decide)
    | some e =>
      have he := cpe_cleanS haddr e h
      refine LinesOk_single_clean ?_
      exact CleanS_app_lit (CleanS_lit_app (by decide) he (by decide))
        (by decide) (by decide)
  | exprStmt v =>
    cases v with
    | call f args =>
      have h' := andB (show (cleanE f && cleanEList args) = true from h)
      cases f with
      | name id =>
        show LinesOk (if id = "print" then _ else _)
        by_cases hp : id = "print"
        · rw [if_pos hp]
          have hJ : CleanS (joinSep " << " (cpeList addr args)) :=
            CleanS_joinSep (by decide) (by decide) (by decide) (by decide) _
              (cpeList_cleanS haddr args h'.2)
          refine LinesOk_single_clean ?_
          exact CleanS_app_lit
            (CleanS_lit_app (by decide) hJ (by decide)) (by decide) (by decide)
        · rw [if_neg hp]
          have hc := cpe_cleanS haddr (.call (.name id) args) h
          refine LinesOk_single_clean ?_
          exact CleanS_app_lit (CleanS_lit_app (by decide) hc (by decide))
            (by decide) (by decide)
      | num k =>
        have hc := cpe_cleanS haddr (.call (.num k) args) h
        exact LinesOk_single_clean (CleanS_app_lit
          (CleanS_lit_app (by decide) hc (by decide)) (by decide) (by decide))
      | str s =>
        have hc := cpe_cleanS haddr (.call (.str s) args) h
        exact LinesOk_single_clean (CleanS_app_lit
          (CleanS_lit_app (by decide) hc (by decide)) (by decide) (by decide))
      | binop a o b =>
        have hc := cpe_cleanS haddr (.call (.binop a o b) args) h
        exact LinesOk_single_clean (CleanS_app_lit
          (CleanS_lit_app (by decide) hc (by decide)) (by decide) (by decide))
      | compare a o cs =>
        have hc := cpe_cleanS haddr (.call (.compare a o cs) args) h
        exact LinesOk_single_clean (CleanS_app_lit
          (CleanS_lit_app (by decide) hc (by decide)) (by decide) (by decide))
      | call g gs =>
        have hc := cpe_cleanS haddr (.call (.call g gs) args) h
        exact LinesOk_single_clean (CleanS_app_lit
          (CleanS_lit_app (by decide) hc (by decide)) (by decide) (by decide))
      | boolop o vs =>
        have hc := cpe_cleanS haddr (.call (.boolop o vs) args) h
        exact LinesOk_single_clean (CleanS_app_lit
          (CleanS_lit_app (by decide) hc (by decide)) (by decide) (by decide))
      | unaryop o v =>
        have hc := cpe_cleanS haddr (.call (.unaryop o v) args) h
        exact LinesOk_single_clean (CleanS_app_lit
          (CleanS_lit_app (by decide) hc (by decide)) (by decide) (by decide))
    | num n => exact LinesOk_nil
    | str s => exact LinesOk_nil
    | name id => exact LinesOk_nil
    | binop a o b => exact LinesOk_nil
    | compare a o cs => exact LinesOk_nil
    | boolop o vs => exact LinesOk_nil
    | unaryop o v => exact LinesOk_nil
  | assign ts v =>
    have h' := andB (show (cleanEList ts && cleanE v) = true from h)
    have hv := cpe_cleanS haddr v h'.2
    refine LinesOk_map_clean ?_
    intro t ht
    have ht1 : CleanS (convert_python_expr addr t) := by
      have hmem : convert_python_expr addr t ∈ cpeList addr ts := by
        rw [cpeList_eq_map]
        exact List.mem_map_of_mem _ ht
      exact cpeList_cleanS haddr ts h'.1 _ hmem
    have s1 := CleanS_lit_app (show CleanS "    " by decide) ht1 (by decide)
    have s2 := CleanS_app_lit s1 (show CleanS " = " by decide) (by decide)
    have s3 := CleanS_lit_app s2 hv (safeEnd_app_lit (by decide) (by decide))
    exact CleanS_app_lit s3 (show CleanS ";" by decide) (by decide)
  | ifStmt t body orelse =>
    have ht := cpe_cleanS haddr t h
    have hhead : occMain ("    if (" ++ convert_python_expr addr t ++ ") \x7b") = 0 :=
      occZ_app_lit (occZ_lit_app (by decide) ht.1 (by decide)) (by decide) (by decide)
    have hheadb : ("    if (" ++ convert_python_expr addr t ++ ") \x7b").data.count '{' = 1
        ∧ ("    if (" ++ convert_python_expr addr t ++ ") \x7b").data.count '}' = 0 := by
      constructor
      · rw [countS_append, countS_append, ht.2.1]
        decide
      · rw [countS_append, countS_append, ht.2.2]
        decide
    have hreprs : ∀ (l : List PyStmt),
        LinesOk (l.map (fun s => "        " ++ convert_stmt_fallback addr s)) ∧
        countLines '{' (l.map (fun s => "        " ++ convert_stmt_fallback addr s)) = 0 := by
      intro l
      have hcl : ∀ s' ∈ l, CleanS ("        " ++ convert_stmt_fallback addr s') := by
        intro s' _
        exact CleanS_lit_app (by decide) (convert_stmt_fallback_cleanS haddr s')
          (by decide)
      refine ⟨LinesOk_map_clean hcl, ?_⟩
      unfold countLines
      apply List.sum_eq_zero
      intro x hx
      rcases List.mem_map.mp hx with ⟨y, hy, rfl⟩
      rcases List.mem_map.mp hy with ⟨s', hs', rfl⟩
      exact (hcl s' hs').2.1
    constructor
    · intro l hl
      rcases List.mem_cons.mp hl with h1 | h1
      · exact h1 ▸ hhead
      · rcases List.mem_append.mp h1 with h2 | h2
        · rcases List.mem_append.mp h2 with h3 | h3
          · exact (hreprs body).1.1 l h3
          · rcases List.mem_cons.mp h3 with h4 | h4
            · subst h4; decide
            · simp at h4
        · split at h2
          · simp at h2
          · rcases List.mem_cons.mp h2 with h4 | h4
            · subst h4; decide
            · rcases List.mem_append.mp h4 with h5 | h5
              · exact (hreprs orelse).1.1 l h5
              · rcases List.mem_cons.mp h5 with h6 | h6
                · subst h6; decide
                · simp at h6
    · have hb1 := (hreprs body).2
      have hb2 : countLines '}' (body.map
          (fun s => "        " ++ convert_stmt_fallback addr s)) = 0 := by
        have h9 := (hreprs body).1.2
        rw [(hreprs body).2] at h9
        exact h9.symm
      show countLines '{' (_ :: _) = countLines '}' (_ :: _)
      simp only [List.append_eq, countLines_cons, countLines_append,
        hheadb.1, hheadb.2, hb1, hb2]
      split
      · decide
      · have ho1 := (hreprs orelse).2
        have ho2 : countLines '}' (orelse.map
            (fun s => "        " ++ convert_stmt_fallback addr s)) = 0 := by
          have h9 := (hreprs orelse).1.2
          rw [(hreprs orelse).2] at h9
          exact h9.symm
        simp only [countLines_cons, countLines_append, ho1, ho2]
        decide
  | functionDef nm args body => exact LinesOk_nil
  | imprt names => exact LinesOk_nil
  | importFrom mo => exact LinesOk_nil

theorem funcBodyLines_ok {addr : String} (haddr : CleanS addr) :
    ∀ body : List PyStmt, cleanStList body = true →
      LinesOk (linesOfList (funcStmtLines addr) body) := by
  intro body
  induction body with
  | nil => intro _; exact LinesOk_nil
  | cons s r ih =>
    intro h
    have h' := andB (show (cleanSt s && cleanStList r) = true from h)
    show LinesOk (funcStmtLines addr s ++ linesOfList (funcStmtLines addr) r)
    exact LinesOk_append (funcStmtLines_ok haddr s h'.1) (ih h'.2)

/-- Lines of one top-level node: no `main` occurrence in any line, balanced
brace totals. -/
theorem moduleNodeLines_ok {addr : String} (haddr : CleanS addr) :
    ∀ s : PyStmt, cleanSt s = true → LinesOk (moduleNodeLines addr s) := by
  intro s h
  cases s with
  | functionDef nm args body =>
    have h' := andB (show ((cleanStr nm && cleanArgs args) && cleanStList body)
      = true from h)
    have h'' := andB h'.1
    have hnm : CleanS nm := of_decide_eq_true h''.1
    have hP : CleanS (joinSep ", " (args.map paramStr)) :=
      params_cleanS args h''.2
    have hbody := funcBodyLines_ok haddr body h'.2
    have hhocc : occMain ("void " ++ nm ++ "("
        ++ joinSep ", " (args.map paramStr) ++ ") \x7b") = 0 := by
      apply occZ_app_lit ?_ (by decide) (by decide)
      apply occZ_lit_app ?_ hP.1 (safeEnd_app_lit (by decide) (by decide))
      exact occZ_app_lit (occZ_lit_app (by decide) hnm.1 (by decide))
        (by decide) (by decide)
    have hhbr : ("void " ++ nm ++ "("
          ++ joinSep ", " (args.map paramStr) ++ ") \x7b").data.count '{' = 1
        ∧ ("void " ++ nm ++ "("
          ++ joinSep ", " (args.map paramStr) ++ ") \x7b").data.count '}' = 0 := by
      constructor
      · simp only [countS_append, hnm.2.1, hP.2.1]
        decide
      · simp only [countS_append, hnm.2.2, hP.2.2]
        decide
    constructor
    · intro l hl
      rcases List.mem_cons.mp hl with h1 | h1
      · exact h1 ▸ hhocc
      · rcases List.mem_append.mp h1 with h2 | h2
        · exact hbody.1 l h2
        · rcases List.mem_cons.mp h2 with h3 | h3
          · subst h3; decide
          · rcases List.mem_cons.mp h3 with h4 | h4
            · subst h4; decide
            · simp at h4
    · have e1 : List.count '{' ("\x7d" : String).data = 0 := by decide
      have e2 : List.count '}' ("\x7d" : String).data = 1 := by decide
      have e3 : List.count '{' ("" : String).data = 0 := by decide
      have e4 : List.count '}' ("" : String).data = 0 := by decide
      show countLines '{' (_ :: _) = countLines '}' (_ :: _)
      simp only [List.append_eq, countLines_cons, countLines_nil,
        countLines_append, hhbr.1, hhbr.2, hbody.2, e1, e2, e3, e4]
      omega
  | assign ts v =>
    have h' := andB (show (cleanEList ts && cleanE v) = true from h)
    have hv := cpe_cleanS haddr v h'.2
    refine LinesOk_map_clean ?_
    intro t ht
    have ht1 : CleanS (convert_python_expr addr t) := by
      have hmem : convert_python_expr addr t ∈ cpeList addr ts := by
        rw [cpeList_eq_map]
        exact List.mem_map_of_mem _ ht
      exact cpeList_cleanS haddr ts h'.1 _ hmem
    have s1 := CleanS_lit_app (show CleanS "auto " by decide) ht1 (by decide)
    have s2 := CleanS_app_lit s1 (show CleanS " = " by decide) (by decide)
    have s3 := CleanS_lit_app s2 hv (safeEnd_app_lit (by decide) (by decide))
    exact CleanS_app_lit s3 (show CleanS ";" by decide) (by decide)
  | exprStmt v =>
    cases v with
    | call f args =>
      have h' := andB (show (cleanE f && cleanEList args) = true from h)
      cases f with
      | name id =>
        show LinesOk (if id = "print" then _ else _)
        by_cases hp : id = "print"
        · rw [if_pos hp]
          have hJ : CleanS (joinSep " << " (cpeList addr args)) :=
            CleanS_joinSep (by decide) (by decide) (by decide) (by decide) _
              (cpeList_cleanS haddr args h'.2)
          exact LinesOk_single_clean (CleanS_app_lit
            (CleanS_lit_app (by decide) hJ (by decide)) (by decide) (by decide))
        · rw [if_neg hp]
          have hc := cpe_cleanS haddr (.call (.name id) args) h
          exact LinesOk_single_clean
            (CleanS_app_lit hc (show CleanS ";" by decide) (by decide))
      | num k =>
        have hc := cpe_cleanS haddr (.call (.num k) args) h
        exact LinesOk_single_clean
          (CleanS_app_lit hc (show CleanS ";" by decide) (by decide))
      | str s =>
        have hc := cpe_cleanS haddr (.call (.str s) args) h
        exact LinesOk_single_clean
          (CleanS_app_lit hc (show CleanS ";" by decide) (by decide))
      | binop a o b =>
        have hc := cpe_cleanS haddr (.call (.binop a o b) args) h
        exact LinesOk_single_clean
          (CleanS_app_lit hc (show CleanS ";" by decide) (by decide))
      | compare a o cs =>
        have hc := cpe_cleanS haddr (.call (.compare a o cs) args) h
        exact LinesOk_single_clean
          (CleanS_app_lit hc (show CleanS ";" by decide) (by decide))
      | call g gs =>
        have hc := cpe_cleanS haddr (.call (.call g gs) args) h
        exact LinesOk_single_clean
          (CleanS_app_lit hc (show CleanS ";" by decide) (by decide))
      | boolop o vs =>
        have hc := cpe_cleanS haddr (.call (.boolop o vs) args) h
        exact LinesOk_single_clean
          (CleanS_app_lit hc (show CleanS ";" by decide) (by decide))
      | unaryop o v =>
        have hc := cpe_cleanS haddr (.call (.unaryop o v) args) h
        exact LinesOk_single_clean
          (CleanS_app_lit hc (show CleanS ";" by decide) (by decide))
    | num n => exact LinesOk_nil
    | str s => exact LinesOk_nil
    | name id => exact LinesOk_nil
    | binop a o b => exact LinesOk_nil
    | compare a o cs => exact LinesOk_nil
    | boolop o vs => exact LinesOk_nil
    | unaryop o v => exact LinesOk_nil
  | ret v => exact LinesOk_nil
  | ifStmt t b o => exact LinesOk_nil
  | imprt n => exact LinesOk_nil
  | importFrom mo => exact LinesOk_nil

theorem moduleLines_ok {addr : String} (haddr : CleanS addr) :
    ∀ m : List PyStmt, cleanStList m = true →
      LinesOk (linesOfList (moduleNodeLines addr) m) := by
  intro m
  induction m with
  | nil => intro _; exact LinesOk_nil
  | cons s r ih =>
    intro h
    have h' := andB (show (cleanSt s && cleanStList r) = true from h)
    show LinesOk (moduleNodeLines addr s ++ linesOfList (moduleNodeLines addr) r)
    exact LinesOk_append (moduleNodeLines_ok haddr s h'.1) (ih h'.2)

theorem count_joinSepNL {c : Char} (hc : c ≠ '\n') :
    ∀ ls : List String,
      (joinSep "\n" ls).data.count c = (ls.map (fun l => l.data.count c)).sum := by
  intro ls
  induction ls with
  | nil => rfl
  | cons x xs ih =>
    cases xs with
    | nil => simp [joinSep]
    | cons y ys =>
      have e1 : (joinSep "\n" (x :: y :: ys)).data
          = x.data ++ '\n' :: (joinSep "\n" (y :: ys)).data := by
        show (x ++ "\n" ++ joinSep "\n" (y :: ys)).data = _
        rw [data_append, data_append]
        simp
      rw [e1, List.count_append, List.count_cons, ih]
      have : ('\n' == c) = false := by
        simp only [beq_eq_false_iff_ne, ne_eq]
        exact fun hcc => hc hcc.symm
      simp [this]

/-- The includes entry is clean: every possible `#include` line is. -/
theorem includesEntry_cleanS (m : List PyStmt) : CleanS (includesEntry m) := by
  have hper : ∀ l ∈ (includesList m).map (fun inc => "#include " ++ inc), CleanS l := by
    intro l hl
    rcases List.mem_map.mp hl with ⟨inc, hinc, rfl⟩
    have huniv : inc ∈ includeUniverse :=
      collectIncludes_universe m inc ((mem_includesList_iff m).mp hinc)
    have h5 : inc = "<iostream>" ∨ inc = "<string>" ∨ inc = "<cmath>"
        ∨ inc = "<random>" ∨ inc = "<ctime>" := by
      simpa [includeUniverse] using huniv
    rcases h5 with rfl | rfl | rfl | rfl | rfl <;> decide
  unfold includesEntry
  refine ⟨?_, ?_, ?_⟩
  · show occCount "main".data (joinSep "\n" _).data = 0
    rw [occCount_joinSepNL (by decide) (by decide)]
    apply List.sum_eq_zero
    intro n hn
    rcases List.mem_map.mp hn with ⟨l, hl, rfl⟩
    exact (hper l hl).1
  · rw [count_joinSepNL (by decide)]
    apply List.sum_eq_zero
    intro n hn
    rcases List.mem_map.mp hn with ⟨l, hl, rfl⟩
    exact (hper l hl).2.1
  · rw [count_joinSepNL (by decide)]
    apply List.sum_eq_zero
    intro n hn
    rcases List.mem_map.mp hn with ⟨l, hl, rfl⟩
    exact (hper l hl).2.2

/-- All entries of the `cpp_code` list are clean for a clean module. -/
theorem python_to_cpp_body_ok {addr : String} (haddr : CleanS addr)
    (m : List PyStmt) (hm : cleanStList m = true) :
    LinesOk (python_to_cpp_body addr m) := by
  show LinesOk ([includesEntry m] ++ ([""] ++ linesOfList (moduleNodeLines addr) m))
  exact LinesOk_append (LinesOk_single_clean (includesEntry_cleanS m))
    (LinesOk_append (LinesOk_single_clean (by decide)) (moduleLines_ok haddr m hm))

set_option maxRecDepth 40000 in
/-- Claim C1 (amended): the entry-point stub is appended exactly when no
rendered entry contains `main`; and whenever the runtime repr address and
every identifier and string literal of the (supported-construct) input are
free of `main` and of brace characters, the output contains `main` exactly
once — the occurrence inside the appended stub — and is brace-balanced:
its numbers of `{` and `}` characters are equal. -/
theorem claim_C1_entry_point (addr : String) (m : List PyStmt) :
    ((python_to_cpp_body addr m).any (fun l => hasSub "main" l) = false →
        python_to_cpp addr (Except.ok m)
          = joinSep "\n" (python_to_cpp_body addr m ++ [mainStub])) ∧
    ((python_to_cpp_body addr m).any (fun l => hasSub "main" l) = true →
        python_to_cpp addr (Except.ok m) = joinSep "\n" (python_to_cpp_body addr m)) ∧
    (CleanS addr → cleanStList m = true →
        occCountS "main" (python_to_cpp addr (Except.ok m)) = 1 ∧
        (python_to_cpp addr (Except.ok m)).data.count '{'
          = (python_to_cpp addr (Except.ok m)).data.count '}') := by
  refine ⟨?_, ?_, ?_⟩
  · intro h
    show python_to_cpp_translate addr m = _
    unfold python_to_cpp_translate
    rw [h]
    simp
  · intro h
    show python_to_cpp_translate addr m = _
    unfold python_to_cpp_translate
    rw [h]
    simp
  · intro haddr hm
    have hfull : LinesOk (python_to_cpp_body addr m) :=
      python_to_cpp_body_ok haddr m hm
    have hany : (python_to_cpp_body addr m).any (fun l => hasSub "main" l) = false := by
      cases happ : (python_to_cpp_body addr m).any (fun l => hasSub "main" l) with
      | false => rfl
      | true =>
        exfalso
        rcases List.any_eq_true.mp happ with ⟨x, hx, hpx⟩
        have h0 : hasSub "main" x = false :=
          hasSub_eq_false_of_occ (by decide) (hfull.1 x hx)
        rw [h0] at hpx
        exact Bool.false_ne_true hpx
    have e : python_to_cpp addr (Except.ok m)
        = joinSep "\n" (python_to_cpp_body addr m ++ [mainStub]) := by
      show python_to_cpp_translate addr m = _
      unfold python_to_cpp_translate
      rw [hany]
      simp
    constructor
    · rw [e]
      show occCount "main".data (joinSep "\n" _).data = 1
      rw [occCount_joinSepNL (by decide) (by decide), List.map_append,
        List.sum_append]
      have hz : ((python_to_cpp_body addr m).map
          (fun l => occCount "main".data l.data)).sum = 0 := by
        apply List.sum_eq_zero
        intro n hn
        rcases List.mem_map.mp hn with ⟨l, hl, rfl⟩
        exact hfull.1 l hl
      rw [hz]
      decide
    · rw [e]
      rw [show (joinSep "\n" (python_to_cpp_body addr m ++ [mainStub])).data.count '{'
          = ((python_to_cpp_body addr m ++ [mainStub]).map
              (fun l => l.data.count '{')).sum from count_joinSepNL (by decide) _,
        show (joinSep "\n" (python_to_cpp_body addr m ++ [mainStub])).data.count '}'
          = ((python_to_cpp_body addr m ++ [mainStub]).map
              (fun l => l.data.count '}')).sum from count_joinSepNL (by decide) _]
      rw [List.map_append, List.sum_append, List.map_append, List.sum_append]
      have hb := hfull.2
      unfold countLines at hb
      rw [hb]
      have hs1 : (([mainStub]).map (fun l => l.data.count '{')).sum = 1 := by decide
      have hs2 : (([mainStub]).map (fun l => l.data.count '}')).sum = 1 := by decide
      rw [hs1, hs2]

set_option maxRecDepth 40000 in
/-- Claim C1 counterexample: for the valid supported-construct input
`main = main` / `x = "{"`, the rendered lines contain `main`, so no stub is
appended; the output contains `main` twice (the assignment's two sides) and
an unmatched `{` from the string literal — the claim's "brace-balanced with
exactly one `main`" fails at this input. -/
theorem claim_C1_counterexample :
    ¬ (occCountS "main" (python_to_cpp "0x7f" (Except.ok moduleC1)) = 1 ∧
       (python_to_cpp "0x7f" (Except.ok moduleC1)).data.count '{'
         = (python_to_cpp "0x7f" (Except.ok moduleC1)).data.count '}') := by
  decide

set_option maxRecDepth 200000 in
/-- Witness for the amended claim C1, at a concrete clean module and repr
address, every hypothesis discharged by computation. -/
theorem claim_C1_entry_point_witness :
    python_to_cpp "0x7f" (Except.ok moduleC1w)
        = joinSep "\n" (python_to_cpp_body "0x7f" moduleC1w ++ [mainStub]) ∧
    python_to_cpp "0x7f" (Except.ok moduleC1)
        = joinSep "\n" (python_to_cpp_body "0x7f" moduleC1) ∧
    occCountS "main" (python_to_cpp "0x7f" (Except.ok moduleC1w)) = 1 ∧
    (python_to_cpp "0x7f" (Except.ok moduleC1w)).data.count '{'
      = (python_to_cpp "0x7f" (Except.ok moduleC1w)).data.count '}' := by
  have h3 := (claim_C1_entry_point "0x7f" moduleC1w).2.2 (by decide) (by decide)
  exact ⟨(claim_C1_entry_point "0x7f" moduleC1w).1 (by decide),
    (claim_C1_entry_point "0x7f" moduleC1).2.1 (by decide),
    h3.1, h3.2⟩

end Convertifier

